import Mathlib

/-!
Verification development for the `mcp-secure-server` security middleware.

Each JavaScript component relevant to the claims is embedded shallowly:
pure functions become Lean functions on `List Char` / `String`, stateful
components become explicit state-passing functions, JS `Map` objects become
insertion-ordered association lists, and the `Date.now()` clock and the
CSPRNG become explicit parameters.  JS strings are modelled as sequences of
characters (`List Char`); all inputs used in concrete theorems are ASCII or
BMP characters, where JS UTF-16 length and Lean codepoint length agree.
-/

set_option autoImplicit false

namespace McpSec

/-! ## Character classes used by the JS regexes in `error-sanitizer.js` -/

/-- JS regex class `[0-9]`. -/
def isDigitChar (c : Char) : Bool := '0' ≤ c && c ≤ '9'

/-- JS regex class `[A-Z]`. -/
def isUpperChar (c : Char) : Bool := 'A' ≤ c && c ≤ 'Z'

/-- JS regex class `[a-z]`. -/
def isLowerChar (c : Char) : Bool := 'a' ≤ c && c ≤ 'z'

/-- JS regex class `[A-Za-z]`. -/
def isAlphaChar (c : Char) : Bool := isUpperChar c || isLowerChar c

/-- JS regex class `[A-Za-z0-9]`. -/
def isAlnumChar (c : Char) : Bool := isAlphaChar c || isDigitChar c

/-- JS regex class `\w`, i.e. `[A-Za-z0-9_]`; also the class deciding `\b`. -/
def isWordChar (c : Char) : Bool := isAlnumChar c || c = '_'

/-- JS regex class `[a-fA-F0-9]` (the hex test used by the hex-key rule). -/
def isHexDigitChar (c : Char) : Bool :=
  isDigitChar c || ('a' ≤ c && c ≤ 'f') || ('A' ≤ c && c ≤ 'F')

/-- JS regex class `\s` (ECMAScript white space and line terminators). -/
def isJsSpace (c : Char) : Bool :=
  c = ' ' || c = '\t' || c = '\n' || c = '\r' || c = '\x0b' || c = '\x0c' ||
  c = ' ' || c = ' ' ||
  (' ' ≤ c && c ≤ ' ') ||
  c = ' ' || c = ' ' || c = ' ' || c = ' ' ||
  c = '　' || c = '﻿'

/-- ASCII lower-casing, used to model the `i` regex flag. -/
def toLowerAscii (c : Char) : Char :=
  if isUpperChar c then Char.ofNat (c.toNat + 32) else c

/-! ## A tiny scanner framework for JS `String.replace` with a global regex

A matcher takes the character immediately before the current position
(`none` at the start of the string, used for `\b`) and the remaining
characters, and returns `some (matched, rest)` when the regex matches at
this exact position (with `matched ++ rest` the input).  `replaceAllWith`
then mirrors the JS global-replace loop: scan left to right, replace the
leftmost match, resume immediately after it. -/

/-- JS word boundary `\b` between two (optional) characters. -/
def isBoundary (prev next : Option Char) : Bool :=
  (match prev with | some c => isWordChar c | none => false) !=
  (match next with | some c => isWordChar c | none => false)

/-- Greedy run of characters satisfying `p` (regex `p*` maximal munch). -/
def munch (p : Char → Bool) : List Char → List Char × List Char
  | [] => ([], [])
  | c :: cs =>
    if p c then
      let r := munch p cs
      (c :: r.1, r.2)
    else ([], c :: cs)

/-- Exactly `n` characters satisfying `p` (regex `p{n}`). -/
def takeExact (p : Char → Bool) : Nat → List Char → Option (List Char × List Char)
  | 0, cs => some ([], cs)
  | _ + 1, [] => none
  | n + 1, c :: cs =>
    if p c then (takeExact p n cs).map (fun pr => (c :: pr.1, pr.2)) else none

/-- Case-sensitive literal. Returns the consumed characters and the rest. -/
def stripCS : List Char → List Char → Option (List Char × List Char)
  | [], cs => some ([], cs)
  | _ :: _, [] => none
  | p :: ps, c :: cs =>
    if c = p then
      match stripCS ps cs with
      | some (m, r) => some (c :: m, r)
      | none => none
    else none

/-- Case-insensitive literal (regex `i` flag), ASCII case folding as in JS. -/
def stripCI : List Char → List Char → Option (List Char × List Char)
  | [], cs => some ([], cs)
  | _ :: _, [] => none
  | p :: ps, c :: cs =>
    if toLowerAscii c = toLowerAscii p then
      match stripCI ps cs with
      | some (m, r) => some (c :: m, r)
      | none => none
    else none

/-- One step of the JS global-replace scan (fuelled; the fuel is an upper
bound on the number of scan steps, `length + 1` always suffices because
every step consumes at least one character). -/
def replaceScanAux (m : Option Char → List Char → Option (List Char × List Char))
    (repl : List Char → List Char) : Nat → Option Char → List Char → List Char
  | 0, _, cs => cs
  | _ + 1, _, [] => []
  | fuel + 1, prev, c :: cs =>
    match m prev (c :: cs) with
    | some (mat, rest) =>
      repl mat ++
        replaceScanAux m repl fuel
          (match mat.getLast? with | some l => some l | none => prev) rest
    | none => c :: replaceScanAux m repl fuel (some c) cs

/-- JS `s.replace(re, repl)` with a global regex `re` modelled by `m`. -/
def replaceAllWith (m : Option Char → List Char → Option (List Char × List Char))
    (repl : List Char → List Char) (cs : List Char) : List Char :=
  replaceScanAux m repl (cs.length + 1) none cs

/-! Basic scanner lemmas used to show that the redaction rules leave
"clean" strings unchanged. -/

/-! ## `ErrorSanitizer.redact` (src/security/utils/error-sanitizer.js)

Each `.replace(regex, repl)` call of `redactCredentials` / `redactPII` is
embedded as a matcher for its regex plus a `replaceAllWith` pass.  The
matchers implement the exact JS backtracking semantics of each pattern
(greedy maximal munch, with explicit descent where a quantifier before a
`\b` or `\.` can genuinely backtrack). -/

/-- `/\bAKIA[0-9A-Z]{16}\b/g` (also used for the `AISA`/`ARIA` variants,
which differ only in the four-character literal). -/
def matchAwsKey (lit : List Char) (prev : Option Char) (cs : List Char) :
    Option (List Char × List Char) :=
  if isBoundary prev cs.head? then
    match stripCS lit cs with
    | some (m1, r1) =>
      match takeExact (fun c => isDigitChar c || isUpperChar c) 16 r1 with
      | some (m2, r2) =>
        if isBoundary m2.getLast? r2.head? then some (m1 ++ m2, r2) else none
      | none => none
    | none => none
  else none

/-- `/\bgh[pousrnt]_[A-Za-z0-9]{36,255}\b/g`.  The `{36,255}` quantifier with
a trailing `\b` accepts exactly the maximal alphanumeric run when its length
lies in `[36,255]` (shrinking the run always puts an alphanumeric character
after the match, so backtracking cannot restore the boundary). -/
def matchGithubToken (prev : Option Char) (cs : List Char) :
    Option (List Char × List Char) :=
  if isBoundary prev cs.head? then
    match stripCS ['g', 'h'] cs with
    | some (m1, r1) =>
      match r1 with
      | c2 :: r2 =>
        if c2 = 'p' || c2 = 'o' || c2 = 'u' || c2 = 's' || c2 = 'r' || c2 = 'n' || c2 = 't' then
          match r2 with
          | c3 :: r3 =>
            if c3 = '_' then
              let b := munch isAlnumChar r3
              if 36 ≤ b.1.length && b.1.length ≤ 255 && isBoundary b.1.getLast? b.2.head? then
                some (m1 ++ c2 :: c3 :: b.1, b.2)
              else none
            else none
          | [] => none
        else none
      | [] => none
    | none => none
  else none

/-- `/\b[sS][kK]_(?:test|live)_[a-zA-Z0-9]{20,}\b/gi`. -/
def matchApiKey (prev : Option Char) (cs : List Char) : Option (List Char × List Char) :=
  if isBoundary prev cs.head? then
    match stripCI ['s', 'k', '_'] cs with
    | some (m1, r1) =>
      let alt : Option (List Char × List Char) :=
        match stripCI ['t', 'e', 's', 't'] r1 with
        | some pr => some pr
        | none => stripCI ['l', 'i', 'v', 'e'] r1
      match alt with
      | some (m2, r2) =>
        match r2 with
        | c3 :: r3 =>
          if c3 = '_' then
            let b := munch isAlnumChar r3
            if 20 ≤ b.1.length && isBoundary b.1.getLast? b.2.head? then
              some (m1 ++ m2 ++ c3 :: b.1, b.2)
            else none
          else none
        | [] => none
      | none => none
    | none => none
  else none

/-- `/\b[a-zA-Z0-9]{32,}\b/g` (the replacement decides on the hex test). -/
def matchLongAlnum (prev : Option Char) (cs : List Char) :
    Option (List Char × List Char) :=
  if isBoundary prev cs.head? then
    let b := munch isAlnumChar cs
    if 32 ≤ b.1.length && isBoundary b.1.getLast? b.2.head? then
      some (b.1, b.2)
    else none
  else none

/-- The callback of the hex-key rule: `/^[a-fA-F0-9]+$/.test(match)`. -/
def hexKeyRepl (m : List Char) : List Char :=
  if m.all isHexDigitChar then "****HEX_KEY****".data else m

/-- JWT body class `[A-Za-z0-9+/=_-]`. -/
def jwtBodyChar (c : Char) : Bool :=
  isAlnumChar c || c = '+' || c = '/' || c = '=' || c = '_' || c = '-'

/-- Word-boundary test after taking `j` characters of the third JWT segment
(`j = 0` puts the boundary right after the second dot). -/
def jwtBoundaryAt (p3 after : List Char) (j : Nat) : Bool :=
  isBoundary (if j = 0 then some '.' else (p3.take j).getLast?)
    ((p3.drop j ++ after).head?)

/-- Greedy backtracking of `[A-Za-z0-9+/=_-]*\b`: the largest prefix length
with a word boundary after it. -/
def jwtSplitSearch (p3 after : List Char) : Nat → Option Nat
  | 0 => if jwtBoundaryAt p3 after 0 then some 0 else none
  | j + 1 =>
    if jwtBoundaryAt p3 after (j + 1) then some (j + 1) else jwtSplitSearch p3 after j

/-- `/\beyJ[A-Za-z0-9+/=_-]+\.[A-Za-z0-9+/=_-]+\.[A-Za-z0-9+/=_-]*\b/g`. -/
def matchJwt (prev : Option Char) (cs : List Char) : Option (List Char × List Char) :=
  if isBoundary prev cs.head? then
    match stripCS ['e', 'y', 'J'] cs with
    | some (m1, r1) =>
      let p1 := munch jwtBodyChar r1
      if p1.1.isEmpty then none else
      match p1.2 with
      | d1 :: r2 =>
        if d1 = '.' then
          let p2 := munch jwtBodyChar r2
          if p2.1.isEmpty then none else
          match p2.2 with
          | d2 :: r3 =>
            if d2 = '.' then
              let p3 := munch jwtBodyChar r3
              match jwtSplitSearch p3.1 p3.2 p3.1.length with
              | some j =>
                some (m1 ++ p1.1 ++ d1 :: p2.1 ++ d2 :: p3.1.take j, p3.1.drop j ++ p3.2)
              | none => none
            else none
          | [] => none
        else none
      | [] => none
    | none => none
  else none

/-- Token class `[A-Za-z0-9._\-]` of the `Bearer` rules. -/
def bearerTokChar (c : Char) : Bool :=
  isAlnumChar c || c = '.' || c = '_' || c = '-'

/-- `/Bearer\s+[A-Za-z0-9._\-]{10,}/gi` (no word boundaries). -/
def matchBearerToken (_prev : Option Char) (cs : List Char) :
    Option (List Char × List Char) :=
  match stripCI ['b', 'e', 'a', 'r', 'e', 'r'] cs with
  | some (m1, r1) =>
    let sp := munch isJsSpace r1
    if sp.1.isEmpty then none else
    let tok := munch bearerTokChar sp.2
    if tok.1.length < 10 then none else some (m1 ++ sp.1 ++ tok.1, tok.2)
  | none => none

/-- `/Authorization:\s*Basic\s+[A-Za-z0-9+/=]+/gi`. -/
def matchAuthBasic (_prev : Option Char) (cs : List Char) :
    Option (List Char × List Char) :=
  match stripCI "authorization:".data cs with
  | some (m1, r1) =>
    let sp := munch isJsSpace r1
    match stripCI ['b', 'a', 's', 'i', 'c'] sp.2 with
    | some (m2, r2) =>
      let sp2 := munch isJsSpace r2
      if sp2.1.isEmpty then none else
      let tok := munch (fun c => isAlnumChar c || c = '+' || c = '/' || c = '=') sp2.2
      if tok.1.isEmpty then none else
      some (m1 ++ sp.1 ++ m2 ++ sp2.1 ++ tok.1, tok.2)
    | none => none
  | none => none

/-- `/Authorization:\s*Bearer\s+[A-Za-z0-9._\-]+/gi`. -/
def matchAuthBearer (_prev : Option Char) (cs : List Char) :
    Option (List Char × List Char) :=
  match stripCI "authorization:".data cs with
  | some (m1, r1) =>
    let sp := munch isJsSpace r1
    match stripCI ['b', 'e', 'a', 'r', 'e', 'r'] sp.2 with
    | some (m2, r2) =>
      let sp2 := munch isJsSpace r2
      if sp2.1.isEmpty then none else
      let tok := munch bearerTokChar sp2.2
      if tok.1.isEmpty then none else
      some (m1 ++ sp.1 ++ m2 ++ sp2.1 ++ tok.1, tok.2)
    | none => none
  | none => none

/-- `/\b\w+:\/\/[^:]+:[^@]+@[^\/\s]+(?:\/[^\s]*)?/g`. -/
def matchDbConn (prev : Option Char) (cs : List Char) :
    Option (List Char × List Char) :=
  if isBoundary prev cs.head? then
    let w := munch isWordChar cs
    if w.1.isEmpty then none else
    match stripCS [':', '/', '/'] w.2 with
    | some (m2, r2) =>
      let u := munch (fun c => c != ':') r2
      if u.1.isEmpty then none else
      match u.2 with
      | c3 :: r3 =>
        if c3 = ':' then
          let p := munch (fun c => c != '@') r3
          if p.1.isEmpty then none else
          match p.2 with
          | c4 :: r4 =>
            if c4 = '@' then
              let h := munch (fun c => c != '/' && !isJsSpace c) r4
              if h.1.isEmpty then none else
              match h.2 with
              | c5 :: _ =>
                if c5 = '/' then
                  let t := munch (fun c => !isJsSpace c) h.2
                  some (w.1 ++ m2 ++ u.1 ++ c3 :: p.1 ++ c4 :: h.1 ++ t.1, t.2)
                else some (w.1 ++ m2 ++ u.1 ++ c3 :: p.1 ++ c4 :: h.1, h.2)
              | [] => some (w.1 ++ m2 ++ u.1 ++ c3 :: p.1 ++ c4 :: h.1, h.2)
            else none
          | [] => none
        else none
      | [] => none
    | none => none
  else none

/-- The `-----END [A-Z ]+-----` tail of the PEM rule at the current position. -/
def pemEndAt (cs : List Char) : Option (List Char × List Char) :=
  match stripCS "-----END ".data cs with
  | some (m1, r1) =>
    let b := munch (fun c => isUpperChar c || c = ' ') r1
    if b.1.isEmpty then none else
    match stripCS ['-', '-', '-', '-', '-'] b.2 with
    | some (m3, r3) => some (m1 ++ b.1 ++ m3, r3)
    | none => none
  | none => none

/-- Lazy `[\s\S]*?` search for the earliest PEM end marker. -/
def pemSearch : List Char → Option (List Char × List Char)
  | [] => none
  | c :: cs =>
    match pemEndAt (c :: cs) with
    | some pr => some pr
    | none =>
      match pemSearch cs with
      | some pr => some (c :: pr.1, pr.2)
      | none => none

/-- `/-----BEGIN [A-Z ]+-----[\s\S]*?-----END [A-Z ]+-----/g`. -/
def matchPem (_prev : Option Char) (cs : List Char) :
    Option (List Char × List Char) :=
  match stripCS "-----BEGIN ".data cs with
  | some (m1, r1) =>
    let b := munch (fun c => isUpperChar c || c = ' ') r1
    if b.1.isEmpty then none else
    match stripCS ['-', '-', '-', '-', '-'] b.2 with
    | some (m3, r3) =>
      match pemSearch r3 with
      | some (mid, r4) => some (m1 ++ b.1 ++ m3 ++ mid, r4)
      | none => none
    | none => none
  | none => none

/-- Quote class `["\']` of the password rules. -/
def isQuoteChar (c : Char) : Bool := c = '"' || c = '\''

/-- `/["\']?KW["\']?\s*[:=]\s*["\'][^"']+["\']/gi` for a keyword `KW`
(`password`, `pass`, `secret`).  The keyword never starts with a quote, so
the optional opening quote is consumed exactly when present; the optional
quote after the keyword likewise cannot backtrack usefully (a quote is
neither white space nor `[:=]`). -/
def matchPwdField (kw : List Char) (_prev : Option Char) (cs : List Char) :
    Option (List Char × List Char) :=
  let core : List Char → Option (List Char × List Char) := fun r0 =>
    match stripCI kw r0 with
    | some (mk, r1) =>
      let q2 : List Char × List Char :=
        match r1 with
        | c :: rest => if isQuoteChar c then ([c], rest) else ([], r1)
        | [] => ([], r1)
      let s3 := munch isJsSpace q2.2
      match s3.2 with
      | c3 :: r3 =>
        if c3 = ':' || c3 = '=' then
          let s4 := munch isJsSpace r3
          match s4.2 with
          | c4 :: r4 =>
            if isQuoteChar c4 then
              let b := munch (fun c => !isQuoteChar c) r4
              if b.1.isEmpty then none else
              match b.2 with
              | c5 :: r5 =>
                if isQuoteChar c5 then
                  some (mk ++ q2.1 ++ s3.1 ++ c3 :: s4.1 ++ c4 :: b.1 ++ [c5], r5)
                else none
              | [] => none
            else none
          | [] => none
        else none
      | [] => none
    | none => none
  match cs with
  | c :: rest =>
    if isQuoteChar c then
      match core rest with
      | some (m, r) => some (c :: m, r)
      | none => none
    else core cs
  | [] => none

/-- Email local-part class `[A-Za-z0-9._%+-]`. -/
def emailLocalChar (c : Char) : Bool :=
  isAlnumChar c || c = '.' || c = '_' || c = '%' || c = '+' || c = '-'

/-- Email domain class `[A-Za-z0-9.-]`. -/
def emailDomainChar (c : Char) : Bool := isAlnumChar c || c = '.' || c = '-'

/-- Email TLD class `[A-Z|a-z]` (the literal `|` is part of the class). -/
def emailTldChar (c : Char) : Bool := isAlphaChar c || c = '|'

/-- Greedy backtracking of `[A-Z|a-z]{2,}\b`: the largest prefix length
`≥ 2` of `t` with a word boundary after it. -/
def emailTldSearch (t after : List Char) : Nat → Option Nat
  | k + 2 =>
    if isBoundary (t.take (k + 2)).getLast? ((t.drop (k + 2) ++ after).head?) then
      some (k + 2)
    else emailTldSearch t after (k + 1)
  | _ => none

/-- Greedy backtracking of the domain: try the dot at index `d` (largest
first, `d ≥ 1` because `[A-Za-z0-9.-]+` needs at least one character), then
the TLD. Returns the matched characters after the `@` and the rest. -/
def emailAfterAt (dom after : List Char) : Nat → Option (List Char × List Char)
  | 0 => none
  | d + 1 =>
    let attempt : Option (List Char × List Char) :=
      if dom[d + 1]? = some '.' then
        let tl := munch emailTldChar (dom.drop (d + 2) ++ after)
        match emailTldSearch tl.1 tl.2 tl.1.length with
        | some k => some (dom.take (d + 1) ++ '.' :: tl.1.take k, tl.1.drop k ++ tl.2)
        | none => none
      else none
    match attempt with
    | some pr => some pr
    | none => emailAfterAt dom after d

/-- `/\b[A-Za-z0-9._%+-]+@[A-Za-z0-9.-]+\.[A-Z|a-z]{2,}\b/g`. -/
def matchEmail (prev : Option Char) (cs : List Char) :
    Option (List Char × List Char) :=
  if isBoundary prev cs.head? then
    let loc := munch emailLocalChar cs
    if loc.1.isEmpty then none else
    match loc.2 with
    | c2 :: r2 =>
      if c2 = '@' then
        let dom := munch emailDomainChar r2
        if dom.1.isEmpty then none else
        match emailAfterAt dom.1 dom.2 (dom.1.length - 1) with
        | some (dpart, rest) => some (loc.1 ++ c2 :: dpart, rest)
        | none => none
      else none
    | [] => none
  else none

/-- `redactCredentials` from error-sanitizer.js: the fifteen `.replace`
passes, applied in source order to the result of the previous pass. -/
def redactCredentials (cs : List Char) : List Char :=
  cs
  |> replaceAllWith (matchAwsKey ['A', 'K', 'I', 'A']) (fun _ => "****AWS_KEY****".data)
  |> replaceAllWith (matchAwsKey ['A', 'I', 'S', 'A']) (fun _ => "****AWS_KEY****".data)
  |> replaceAllWith (matchAwsKey ['A', 'R', 'I', 'A']) (fun _ => "****AWS_KEY****".data)
  |> replaceAllWith matchGithubToken (fun _ => "****GITHUB_TOKEN****".data)
  |> replaceAllWith matchApiKey (fun _ => "****API_KEY****".data)
  |> replaceAllWith matchLongAlnum hexKeyRepl
  |> replaceAllWith matchJwt (fun _ => "****JWT_TOKEN****".data)
  |> replaceAllWith matchBearerToken (fun _ => "Bearer ****TOKEN****".data)
  |> replaceAllWith matchAuthBasic (fun _ => "Authorization: Basic ****".data)
  |> replaceAllWith matchAuthBearer (fun _ => "Authorization: Bearer ****".data)
  |> replaceAllWith matchDbConn (fun _ => "****DB_CONNECTION****".data)
  |> replaceAllWith matchPem (fun _ => "****PRIVATE_KEY****".data)
  |> replaceAllWith (matchPwdField "password".data) (fun _ => "\"password\": \"****\"".data)
  |> replaceAllWith (matchPwdField "pass".data) (fun _ => "\"pass\": \"****\"".data)
  |> replaceAllWith (matchPwdField "secret".data) (fun _ => "\"secret\": \"****\"".data)

/-- `redactPII` from error-sanitizer.js: the email rule. -/
def redactPII (cs : List Char) : List Char :=
  replaceAllWith matchEmail (fun _ => "****EMAIL****".data) cs

/-- Sanitizer options (`enableDetailedErrors`, `maxLogLength`). -/
structure SanitizerConfig where
  enableDetailedErrors : Bool
  maxLogLength : Nat

/-- `ErrorSanitizer.createProductionConfig()`. -/
def ErrorSanitizer.createProductionConfig : SanitizerConfig :=
  { enableDetailedErrors := false, maxLogLength := 500 }

/-- The truncation step of `redact`:
`s.length > maxLogLength ? s.slice(0, maxLogLength) + '…' : s`. -/
def truncateToMax (maxLen : Nat) (s : List Char) : List Char :=
  if maxLen < s.length then s.take maxLen ++ ['…'] else s

/-- `redact` on an already-stringified value:
truncate, then `redactCredentials(redactPII(trimmed))`. -/
def ErrorSanitizer.redactChars (cfg : SanitizerConfig) (s : List Char) : List Char :=
  redactCredentials (redactPII (truncateToMax cfg.maxLogLength s))

/-- `ErrorSanitizer.redact(value)`; `none` models `null`/`undefined`. -/
def ErrorSanitizer.redact (cfg : SanitizerConfig) (value : Option String) : String :=
  match value with
  | none => "Validation value null or undefined"
  | some s => String.mk (ErrorSanitizer.redactChars cfg s.data)

/-- `redact` restricted to string inputs (`String(value)` is the identity). -/
def ErrorSanitizer.redactString (cfg : SanitizerConfig) (s : String) : String :=
  ErrorSanitizer.redact cfg (some s)

/-- Characters (space, `g`–`z`) that trigger none of the redaction rules. -/
def SafeLogChar (c : Char) : Prop := c = ' ' ∨ ('g' ≤ c ∧ c ≤ 'z')

instance (c : Char) : Decidable (SafeLogChar c) := by
  unfold SafeLogChar
  infer_instance


/-! ## Insertion-ordered association lists (the JS `Map`)

A JS `Map` iterates in insertion order; `set` on an existing key keeps its
position, `delete` removes it.  These are the exact operations the quota
provider and the session memory rely on. -/

/-- `Map.get(k)`. -/
def alistGet {α : Type} (m : List (String × α)) (k : String) : Option α :=
  match m with
  | [] => none
  | (k', v) :: rest => if k' = k then some v else alistGet rest k

/-- `Map.set(k, v)`: update in place when the key exists, else append. -/
def alistSet {α : Type} (m : List (String × α)) (k : String) (v : α) :
    List (String × α) :=
  match m with
  | [] => [(k, v)]
  | (k', v') :: rest => if k' = k then (k', v) :: rest else (k', v') :: alistSet rest k v

/-- `Map.delete(k)` (removes the first binding of `k`). -/
def alistDelete {α : Type} (m : List (String × α)) (k : String) :
    List (String × α) :=
  match m with
  | [] => []
  | (k', v) :: rest => if k' = k then rest else (k', v) :: alistDelete rest k

/-- `Map.has(k)`. -/
def alistHas {α : Type} (m : List (String × α)) (k : String) : Bool :=
  (alistGet m k).isSome

/-! ## `InMemoryQuotaProvider` (semantic-quotas.js)

`incrementAndCheck(key, {minute, hour}, now)` with the in-memory windowed
counters.  Timestamps are `Int` milliseconds (`Date.now()`); the state
carries `clockSkewMs` and the `counters` map. -/

/-- A windowed counter `{count, windowStart}`. -/
structure QuotaBucket where
  count : Nat
  windowStart : Int
deriving DecidableEq, Repr

/-- A per-key entry `{minute?, hour?}`. -/
structure QuotaEntry where
  minute : Option QuotaBucket
  hour : Option QuotaBucket
deriving DecidableEq, Repr

/-- `InMemoryQuotaProvider` state. -/
structure QuotaState where
  clockSkewMs : Int
  counters : List (String × QuotaEntry)
deriving DecidableEq, Repr

/-- Result shape `{passed, reason?}` of the quota provider. -/
structure QuotaResult where
  passed : Bool
  reason : Option String
deriving DecidableEq, Repr

/-- Select the bucket named `'minute'` (`true`) or `'hour'` (`false`). -/
def QuotaEntry.getBucket (e : QuotaEntry) (isMinute : Bool) : Option QuotaBucket :=
  if isMinute then e.minute else e.hour

/-- Write the bucket named `'minute'` or `'hour'`. -/
def QuotaEntry.setBucket (e : QuotaEntry) (isMinute : Bool) (b : QuotaBucket) :
    QuotaEntry :=
  if isMinute then { e with minute := some b } else { e with hour := some b }

/-- `checkWindow(key, bucket, limit, windowMs, now)`: `ensureEntry`, reset
when `now − windowStart > windowMs + clockSkewMs`, increment, then compare
against the limit.  Returns the result and the updated state. -/
def InMemoryQuotaProvider.checkWindow (st : QuotaState) (key : String)
    (isMinute : Bool) (limit : Nat) (windowMs : Int) (now : Int) :
    QuotaResult × QuotaState :=
  let entry0 : QuotaEntry := (alistGet st.counters key).getD { minute := none, hour := none }
  let bucket0 : QuotaBucket := (entry0.getBucket isMinute).getD { count := 0, windowStart := now }
  let bucket1 : QuotaBucket :=
    if now - bucket0.windowStart > windowMs + st.clockSkewMs then
      { count := 0, windowStart := now }
    else bucket0
  let bucket2 : QuotaBucket := { bucket1 with count := bucket1.count + 1 }
  let st' : QuotaState :=
    { st with counters := alistSet st.counters key (entry0.setBucket isMinute bucket2) }
  if bucket2.count > limit then
    ({ passed := false,
       reason := some ("Per-" ++ (if isMinute then "minute" else "hour") ++
         " quota exceeded for " ++ key ++ ": " ++ toString bucket2.count ++ "/" ++
         toString limit) }, st')
  else ({ passed := true, reason := none }, st')

/-- The `{minute?, hour?}` limits argument. -/
structure QuotaLimits where
  minute : Option Nat
  hour : Option Nat
deriving DecidableEq, Repr

/-- JS truthiness of an optional numeric limit (`undefined` and `0` falsy). -/
def limitTruthy (l : Option Nat) : Bool :=
  match l with
  | some n => n != 0
  | none => false

/-- `incrementAndCheck(key, {minute, hour}, now)`: check the minute bucket
first and return its failure immediately (the hour bucket is then not
touched), otherwise check the hour bucket. -/
def InMemoryQuotaProvider.incrementAndCheck (st : QuotaState) (key : String)
    (limits : QuotaLimits) (now : Int) : QuotaResult × QuotaState :=
  if limitTruthy limits.minute then
    let mr := InMemoryQuotaProvider.checkWindow st key true (limits.minute.getD 0) 60000 now
    if !mr.1.passed then mr
    else if limitTruthy limits.hour then
      InMemoryQuotaProvider.checkWindow mr.2 key false (limits.hour.getD 0) 3600000 now
    else ({ passed := true, reason := none }, mr.2)
  else if limitTruthy limits.hour then
    InMemoryQuotaProvider.checkWindow st key false (limits.hour.getD 0) 3600000 now
  else ({ passed := true, reason := none }, st)

/-- State after `n` successive `incrementAndCheck` calls with the same key,
limits and timestamp. -/
def quotaCallN (st : QuotaState) (key : String) (limits : QuotaLimits)
    (now : Int) : Nat → QuotaState
  | 0 => st
  | n + 1 =>
    (InMemoryQuotaProvider.incrementAndCheck (quotaCallN st key limits now n)
      key limits now).2

/-! ## `SessionMemory` (semantic-sessions.js)

LRU + TTL map `sessionKey → {method, timestamp}` backed by a JS `Map`
(insertion-ordered, re-inserting after a delete moves the key to the
most-recently-used end). -/

/-- A session entry `{method, timestamp}`. -/
structure SessionEntry where
  method : String
  timestamp : Int
deriving DecidableEq, Repr

/-- `SessionMemory` instance state. -/
structure SessionMemoryState where
  maxEntries : Nat
  ttlMs : Int
  map : List (String × SessionEntry)
deriving DecidableEq, Repr

/-- `new SessionMemory({maxEntries, ttlMs})`. -/
def SessionMemory.empty (maxEntries : Nat) (ttlMs : Int) : SessionMemoryState :=
  { maxEntries := maxEntries, ttlMs := ttlMs, map := [] }

/-- `get(key, now)`: `none` when missing; an entry with
`now − timestamp > ttlMs` is deleted and `none` returned; on a hit the
entry is deleted and re-inserted (moved to the most-recently-used end) and
its method returned. -/
def SessionMemory.get (st : SessionMemoryState) (key : String) (now : Int) :
    Option String × SessionMemoryState :=
  match alistGet st.map key with
  | none => (none, st)
  | some entry =>
    if now - entry.timestamp > st.ttlMs then
      (none, { st with map := alistDelete st.map key })
    else
      (some entry.method,
        { st with map := alistSet (alistDelete st.map key) key entry })

/-- `set(key, method, now)`: delete an existing binding to refresh its
position; otherwise, at capacity, evict the oldest entry (the first key in
map iteration order; `Map.delete(undefined)` on an empty map is a no-op);
then insert `{method, timestamp: now}` at the most-recently-used end. -/
def SessionMemory.set (st : SessionMemoryState) (key method : String)
    (now : Int) : SessionMemoryState :=
  let m1 : List (String × SessionEntry) :=
    if alistHas st.map key then alistDelete st.map key
    else if st.map.length ≥ st.maxEntries then
      match st.map.head? with
      | some (oldest, _) => alistDelete st.map oldest
      | none => st.map
    else st.map
  { st with map := alistSet m1 key ⟨method, now⟩ }

/-- One `get` or `set` call. -/
inductive SessionOp where
  | get (key : String) (now : Int)
  | set (key method : String) (now : Int)
deriving DecidableEq, Repr

/-- Apply one operation to the state. -/
def SessionMemory.step (st : SessionMemoryState) : SessionOp → SessionMemoryState
  | .get k now => (SessionMemory.get st k now).2
  | .set k m now => SessionMemory.set st k m now

/-- Run a sequence of operations. -/
def SessionMemory.run (st : SessionMemoryState) : List SessionOp → SessionMemoryState
  | [] => st
  | op :: ops => SessionMemory.run (SessionMemory.step st op) ops

/-! ## `ValidationResult` and the layer base class (validation-layer-base.js) -/

/-- The object `new ValidationResult({...})` constructs: defaults are
`passed := true`, `severity := 'LOW'`, `reason := null`,
`violationType := null`, `confidence := 1.0`; `allowed` and `valid` are
aliases of `passed`; `layerName` is filled in by the layer. -/
structure ValidationResult where
  passed : Bool
  allowed : Bool
  valid : Bool
  severity : String
  reason : Option String
  violationType : Option String
  confidence : ℚ
  timestamp : Int
  layerName : Option String
deriving DecidableEq, Repr

/-- `ValidationLayer.createSuccessResult()`:
`new ValidationResult({ passed: true })` with `layerName` set. -/
def ValidationLayer.createSuccessResult (name : String) (now : Int) :
    ValidationResult :=
  { passed := true, allowed := true, valid := true, severity := "LOW",
    reason := none, violationType := none, confidence := 1, timestamp := now,
    layerName := some name }

/-- `ValidationLayer.createFailureResult(reason, severity, violationType,
confidence)`: the reason passes through the production-config sanitizer's
`redact` before the result is built. -/
def ValidationLayer.createFailureResult (name : String) (now : Int)
    (reason : String) (severity : String) (violationType : String)
    (confidence : ℚ) : ValidationResult :=
  { passed := false, allowed := false, valid := false, severity := severity,
    reason := some (ErrorSanitizer.redact ErrorSanitizer.createProductionConfig
      (some reason)),
    violationType := some violationType, confidence := confidence,
    timestamp := now, layerName := some name }

/-! ## `ValidationPipeline` (validation-pipeline.js)

The pipeline runs enabled layers in order.  A layer is modelled by its
`isEnabled()`/`getName()` values and its `validate` function, which may
throw (`Except.error` carries the JS exception's `message`).  The pipeline
outcome records the returned result, the decision records handed to the
logger (when one is present in the context), and the names of the layers
whose `validate` actually ran. -/

/-- A raw layer result: every field may be absent (`undefined`). -/
structure RawResult where
  passed : Option Bool
  allowed : Option Bool
  severity : Option String
  reason : Option String
  violationType : Option String
  confidence : Option ℚ
  layerName : Option String
deriving DecidableEq, Repr

/-- A layer as the pipeline sees it. -/
structure PipelineLayer (M : Type) where
  enabled : Bool
  name : String
  validate : M → Except String RawResult

/-- JS `x || d` for an optional string (`undefined`/`null`/`''` falsy). -/
def strOrDefault (v : Option String) (d : String) : String :=
  match v with
  | some s => if s = "" then d else s
  | none => d

/-- JS `x || d` for an optional number (`undefined`/`null`/`0` falsy). -/
def numOrDefault (v : Option ℚ) (d : ℚ) : ℚ :=
  match v with
  | some q => if q = 0 then d else q
  | none => d

/-- The normalized result record the pipeline builds for every layer
result. -/
structure NormalizedResult where
  passed : Bool
  allowed : Bool
  severity : String
  reason : String
  violationType : Option String
  confidence : ℚ
  layerName : String
  timestamp : Int
deriving DecidableEq, Repr

/-- Normalization (validation-pipeline.js): `passed` falls back to
`allowed` then `true`; `allowed` falls back to `passed` then `true`;
`severity || 'LOW'`; `reason || 'No reason provided'`;
`violationType || 'UNKNOWN'`; `confidence || 1.0`;
`layerName || layer.getName()`. -/
def normalizeResult (r : RawResult) (layerName : String) (now : Int) :
    NormalizedResult :=
  { passed :=
      match r.passed with
      | some b => b
      | none =>
        match r.allowed with
        | some b => b
        | none => true
    allowed :=
      match r.allowed with
      | some b => b
      | none =>
        match r.passed with
        | some b => b
        | none => true
    severity := strOrDefault r.severity "LOW"
    reason := strOrDefault r.reason "No reason provided"
    violationType := some (strOrDefault r.violationType "UNKNOWN")
    confidence := numOrDefault r.confidence 1
    layerName := strOrDefault r.layerName layerName
    timestamp := now }

/-- The CRITICAL `VALIDATION_ERROR` result built when a layer throws; the
exception message passes through the error sanitizer's `redact`. -/
def pipelineErrorResult (layerName : String) (errMsg : String) (now : Int) :
    NormalizedResult :=
  { passed := false, allowed := false, severity := "CRITICAL",
    reason := "Layer validation error: " ++
      ErrorSanitizer.redact ErrorSanitizer.createProductionConfig (some errMsg),
    violationType := some "VALIDATION_ERROR", confidence := 1,
    layerName := layerName, timestamp := now }

/-- The composite success result (`layerName: 'Pipeline'`, severity NONE). -/
def pipelineSuccessResult (now : Int) : NormalizedResult :=
  { passed := true, allowed := true, severity := "NONE",
    reason := "All validation layers passed", violationType := none,
    confidence := 1, layerName := "Pipeline", timestamp := now }

/-- A decision record handed to `logger.logSecurityDecision`. -/
structure LogRecord where
  layer : String
  result : NormalizedResult
deriving DecidableEq, Repr

/-- What one `ValidationPipeline.validate` call produced. -/
structure PipelineOutcome where
  result : NormalizedResult
  log : List LogRecord
  evaluated : List String
deriving DecidableEq, Repr

/-- `ValidationPipeline.validate(message, context)`: run enabled layers in
order; log every normalized result (when a logger is present); return the
normalized result as soon as one has `passed = false` and `allowed = false`;
convert a thrown exception into the CRITICAL `VALIDATION_ERROR` result;
return the composite success result when every layer passed. -/
def ValidationPipeline.validate {M : Type} (layers : List (PipelineLayer M))
    (message : M) (loggerPresent : Bool) (now : Int) : PipelineOutcome :=
  match layers with
  | [] =>
    { result := pipelineSuccessResult now,
      log := if loggerPresent then [⟨"Pipeline", pipelineSuccessResult now⟩] else [],
      evaluated := [] }
  | layer :: rest =>
    if layer.enabled then
      match layer.validate message with
      | .ok r =>
        let nr := normalizeResult r layer.name now
        let rec0 : List LogRecord := if loggerPresent then [⟨layer.name, nr⟩] else []
        if !nr.passed && !nr.allowed then
          { result := nr, log := rec0, evaluated := [layer.name] }
        else
          let tail := ValidationPipeline.validate rest message loggerPresent now
          { result := tail.result, log := rec0 ++ tail.log,
            evaluated := layer.name :: tail.evaluated }
      | .error msg =>
        let er := pipelineErrorResult layer.name msg now
        { result := er,
          log := if loggerPresent then [⟨layer.name, er⟩] else [],
          evaluated := [layer.name] }
    else
      ValidationPipeline.validate rest message loggerPresent now

/-! ## Sanitized error responses and `SecureTransport`
(error-sanitizer.js, transport/index.js)

The CSPRNG draws (`node:crypto.randomBytes`) and the clock are explicit
parameters: `randToken` is the 6-byte draw behind `generatePublicToken`,
`msgByte` the 1-byte draw that selects the generic production message, and
`ts` the ISO timestamp string. -/

/-- A JSON-RPC id: string, number, or null. -/
inductive RpcId where
  | str (s : String)
  | num (n : Int)
  | null
deriving DecidableEq, Repr

/-- An inbound transport message, as far as classification and response
construction observe it: `method`/`id` values and presence of
`result`/`error`. -/
structure TMessage where
  method : Option String
  id : Option RpcId
  hasResult : Bool
  hasError : Bool
deriving DecidableEq, Repr

/-- The classification `_getMessageType` returns. -/
inductive MessageType where
  | request
  | notification
  | response
  | unknown
deriving DecidableEq, Repr

/-- `SecureTransport._getMessageType(message)`. -/
def SecureTransport.getMessageType (m : TMessage) : MessageType :=
  if m.method.isSome && m.id.isSome then .request
  else if m.method.isSome && m.id.isNone then .notification
  else if m.id.isSome && (m.hasResult || m.hasError) then .response
  else .unknown

/-- Lower-case hex digit of a value `< 16`. -/
def hexDigit (n : Nat) : Char :=
  if n < 10 then Char.ofNat (48 + n) else Char.ofNat (97 + (n - 10))

/-- Hex encoding of one byte (`Buffer.toString('hex')`). -/
def byteToHex (b : Nat) : List Char := [hexDigit (b / 16 % 16), hexDigit (b % 16)]

/-- `generatePublicToken()`: `randomBytes(6).toString('hex')`. -/
def ErrorSanitizer.generatePublicToken (randToken : List Nat) : String :=
  String.mk (randToken.map byteToHex).flatten

/-- `getSanitizedMessage(type, severity)`: production mode draws one of
three generic messages from a CSPRNG byte; development mode maps the
violation type to a canned message. -/
def ErrorSanitizer.getSanitizedMessage (cfg : SanitizerConfig) (vt : String)
    (msgByte : Nat) : String :=
  if !cfg.enableDetailedErrors then
    [ "Request validation failed", "Invalid request format",
      "Request could not be processed" ].getD (msgByte % 3)
      "Request could not be processed"
  else if vt = "VALIDATION_ERROR" then "Request validation failed"
  else if vt = "POLICY_VIOLATION" then "Request violates policy"
  else if vt = "CONTEXT_VIOLATION" then "Request not permitted in context"
  else if vt = "RATE_LIMIT_EXCEEDED" then "Too many requests"
  else if vt = "INTERNAL_ERROR" then "Internal validation error"
  else "Request could not be processed"

/-- `mapSeverityToErrorCode(severity, violationType)` (the severity is
unused in the source as well). -/
def ErrorSanitizer.mapSeverityToErrorCode (_severity : String)
    (violationType : String) : Int :=
  if violationType = "RATE_LIMIT_EXCEEDED" then -32000
  else if violationType = "INTERNAL_ERROR" then -32603
  else -32602

/-- The `error.data` object of a sanitized response. -/
structure ErrorData where
  timestamp : String
  token : String
  retryAfterMs : Option Nat
deriving DecidableEq, Repr

/-- A JSON-RPC error response (jsonrpc is always `"2.0"`); `data` is absent
in the fallback branch without a sanitizer. -/
structure ErrorResponse where
  id : RpcId
  code : Int
  message : String
  data : Option ErrorData
deriving DecidableEq, Repr

/-- `createSanitizedErrorResponse(messageId, internalReason, severity,
violationType)`: `id := messageId ?? null`, code from
`mapSeverityToErrorCode`, a sanitized message, and data with timestamp,
public token, and `retryAfterMs = 60000` exactly for rate limits.  The
internal reason is only logged. -/
def ErrorSanitizer.createSanitizedErrorResponse (cfg : SanitizerConfig)
    (messageId : Option RpcId) (_internalReason : String)
    (severity violationType : String) (randToken : List Nat) (msgByte : Nat)
    (ts : String) : ErrorResponse :=
  { id := messageId.getD RpcId.null
    code := ErrorSanitizer.mapSeverityToErrorCode severity violationType
    message := ErrorSanitizer.getSanitizedMessage cfg violationType msgByte
    data := some
      { timestamp := ts
        token := ErrorSanitizer.generatePublicToken randToken
        retryAfterMs :=
          if violationType = "RATE_LIMIT_EXCEEDED" then some 60000 else none } }

/-- The fields of a validation result that `SecureTransport` reads. -/
structure VResult where
  allowed : Bool
  passed : Bool
  reason : Option String
  severity : Option String
  violationType : Option String
deriving DecidableEq, Repr

/-- `SecureTransport._validateMessage`: a thrown validator exception is
mapped to a blocked CRITICAL `VALIDATION_ERROR` result. -/
def SecureTransport.validateMessage (validator : TMessage → Except Unit VResult)
    (m : TMessage) : VResult :=
  match validator m with
  | .ok r => r
  | .error _ =>
    { allowed := false, passed := false, reason := some "Validation error",
      severity := some "CRITICAL", violationType := some "VALIDATION_ERROR" }

/-- `SecureTransport._sendBlockedResponse` with an error sanitizer
configured (as `SecureMcpServer` always does): defaults
`reason || 'Request blocked by security policy'`, `severity || 'HIGH'`,
`violationType || 'POLICY_VIOLATION'`. -/
def SecureTransport.sendBlockedResponse (cfg : SanitizerConfig)
    (requestId : Option RpcId) (vr : VResult) (randToken : List Nat)
    (msgByte : Nat) (ts : String) : ErrorResponse :=
  ErrorSanitizer.createSanitizedErrorResponse cfg requestId
    (strOrDefault vr.reason "Request blocked by security policy")
    (strOrDefault vr.severity "HIGH")
    (strOrDefault vr.violationType "POLICY_VIOLATION") randToken msgByte ts

/-- What one `_handleMessage` call did: responses sent back through the
transport, and messages forwarded to the protocol handler. -/
structure HandleOutcome where
  sent : List ErrorResponse
  forwarded : List TMessage
deriving DecidableEq, Repr

/-- `SecureTransport._handleMessage(message)`: responses are forwarded
unvalidated; blocked requests get exactly one sanitized error response;
blocked notifications are dropped silently; allowed messages are
forwarded. -/
def SecureTransport.handleMessage (cfg : SanitizerConfig)
    (validator : TMessage → Except Unit VResult) (m : TMessage)
    (randToken : List Nat) (msgByte : Nat) (ts : String) : HandleOutcome :=
  let mt := SecureTransport.getMessageType m
  if mt = .response then { sent := [], forwarded := [m] }
  else
    let vr := SecureTransport.validateMessage validator m
    if !vr.allowed then
      if mt = .request then
        { sent := [SecureTransport.sendBlockedResponse cfg m.id vr randToken msgByte ts],
          forwarded := [] }
      else { sent := [], forwarded := [] }
    else { sent := [], forwarded := [m] }

/-! ## Resource-policy path checks (semantic-policies.js)

`path.normalize` is Node's POSIX normalization (the deployment platform);
`startsWith`/`endsWith` are prefix/suffix tests on the character sequence.
The deny globs are compiled to regexes by `normalizePolicies`; they are
modelled as predicates on the normalized forward-slash path. -/

/-- Split a character list on `/` (components include empty ones). -/
def splitOnSlash : List Char → List (List Char)
  | [] => [[]]
  | c :: cs =>
    if c = '/' then [] :: splitOnSlash cs
    else
      match splitOnSlash cs with
      | [] => [[c]]
      | h :: t => (c :: h) :: t

/-- One step of `path.posix.normalize`'s component processing: skip empty
and `.` components; `..` pops a regular component, and stacks up only for
relative paths (`allowAboveRoot`). -/
def normStep (allowAboveRoot : Bool) (acc : List (List Char)) (comp : List Char) :
    List (List Char) :=
  if comp = [] ∨ comp = ['.'] then acc
  else if comp = ['.', '.'] then
    match acc with
    | [] => if allowAboveRoot then [['.', '.']] else []
    | a :: rest =>
      if a = ['.', '.'] then
        (if allowAboveRoot then ['.', '.'] :: a :: rest else a :: rest)
      else rest
  else comp :: acc

/-- Join components with `/` (`Array.prototype.join('/')`). -/
def joinComps : List (List Char) → List Char
  | [] => []
  | [c] => c
  | c :: rest => c ++ '/' :: joinComps rest

/-- `path.charCodeAt(0) === CHAR_FORWARD_SLASH` (leading slash). -/
def headIsSlash (l : List Char) : Bool := l.head? = some '/'

/-- `path.charCodeAt(path.length - 1) === CHAR_FORWARD_SLASH` (trailing
slash). -/
def lastIsSlash (l : List Char) : Bool := l.getLast? = some '/'

/-- `path.posix.normalize(path)`. -/
def posixNormalize (s : String) : String :=
  if s = "" then "." else
  let cs := s.data
  let isAbs : Bool := headIsSlash cs
  let trailing : Bool := lastIsSlash cs
  let comps := ((splitOnSlash cs).foldl (normStep (!isAbs)) []).reverse
  let body := joinComps comps
  if body = [] then
    (if isAbs then "/" else if trailing then "./" else ".")
  else
    String.mk ((if isAbs then '/' :: body else body) ++
      (if trailing then ['/'] else []))

/-- `.replace(/\\/g, '/')`. -/
def replaceBackslashes (s : String) : String :=
  String.mk (s.data.map (fun c => if c = '\\' then '/' else c))

/-- JS `s.startsWith(pre)` (prefix of the character sequence). -/
def strStartsWith (s pre : String) : Bool := pre.data.isPrefixOf s.data

/-- JS `s.endsWith(suf)` (suffix of the character sequence). -/
def strEndsWith (s suf : String) : Bool := suf.data.isSuffixOf s.data

/-- `isUnderAllowedRoots(absolutePath, roots)`: normalize both sides to
forward slashes and require equality or a `root + '/'` prefix. -/
def isUnderAllowedRoots (absolutePath : String) (roots : List String) : Bool :=
  let normalizedPath := replaceBackslashes (posixNormalize absolutePath)
  roots.any fun root =>
    let normalizedRoot := replaceBackslashes (posixNormalize root)
    normalizedPath = normalizedRoot ||
      strStartsWith normalizedPath
        (if strEndsWith normalizedRoot "/" then normalizedRoot
         else normalizedRoot ++ "/")

/-- `matchesDenyGlobs(absolutePath, globs)` with compiled glob regexes
modelled as predicates. -/
def matchesDenyGlobs (absolutePath : String) (globs : List (String → Bool)) :
    Bool :=
  let unixPath := replaceBackslashes (posixNormalize absolutePath)
  globs.any fun g => g unixPath

/-- The resource-policy fields `validateFileScheme` reads. -/
structure ResourcePolicyM where
  rootDirs : List String
  denyGlobs : List (String → Bool)
  maxPathLength : Option Nat

/-- A semantic policy-check result `{passed, reason?, severity?,
violationType?}`. -/
structure PolicyResult where
  passed : Bool
  reason : Option String
  severity : Option String
  violationType : Option String
deriving DecidableEq, Repr

/-- The body of `validateFileScheme(uri, resourcePolicy, context)` applied
to the absolute path that `toAbsolutePath` derived from the URI (the claim
quantifies over that derived path): `maxPathLength` (JS-truthy) check, then
root containment, then deny globs. -/
def validateFileSchemeOnPath (absolutePath : String) (policy : ResourcePolicyM) :
    PolicyResult :=
  if (match policy.maxPathLength with | some n => n != 0 | none => false) &&
      (policy.maxPathLength.getD 0 < absolutePath.length) then
    { passed := false, reason := some "Path too long", severity := some "MEDIUM",
      violationType := some "RESOURCE_POLICY_VIOLATION" }
  else if !isUnderAllowedRoots absolutePath policy.rootDirs then
    { passed := false,
      reason := some ("Path \"" ++ absolutePath ++ "\" not under allowed roots"),
      severity := some "HIGH",
      violationType := some "RESOURCE_POLICY_VIOLATION" }
  else if matchesDenyGlobs absolutePath policy.denyGlobs then
    { passed := false,
      reason := some ("Path \"" ++ absolutePath ++ "\" matches deny list"),
      severity := some "HIGH",
      violationType := some "RESOURCE_POLICY_VIOLATION" }
  else { passed := true, reason := none, severity := none, violationType := none }

/-- An absolute path `/c1/c2/…/cn` from its components. -/
def mkAbsPath (comps : List (List Char)) : String :=
  String.mk ('/' :: joinComps comps)

/-- A well-formed path component: nonempty, not `.` or `..`, and free of
`/` and `\`.  A normalized absolute directory path is exactly
`mkAbsPath comps` with all components good. -/
def GoodComp (c : List Char) : Prop :=
  c ≠ [] ∧ c ≠ ['.'] ∧ c ≠ ['.', '.'] ∧ '/' ∉ c ∧ '\\' ∉ c

instance (c : List Char) : Decidable (GoodComp c) := by
  unfold GoodComp
  infer_instance

/-! ## Layer 3 behavior: `checkBasicAutomation` (layer3-behavior.js)

Timestamps are `Date.now()` integers, so the inter-arrival intervals, their
mean (a multiple of 1/4) and the variance (a multiple of 1/64) are exact in
IEEE doubles and are embedded as exact rationals.  The test
`stdDev < 50` with `stdDev = Math.sqrt(variance)` is embedded as
`variance < 2500`: the square root is strictly monotone, `50² = 2500`
exactly, and no representable variance value lies close enough to 2500 for
the correctly rounded float square root to cross 50. -/

/-- An entry of `this.recentRequests`: `{timestamp, method, size}` pushed by
`validateBehavior` (`size` is `JSON.stringify(message).length`). -/
structure BRequest where
  timestamp : Int
  method : Option String
  size : Nat
deriving DecidableEq, Repr

/-- The fields of a message `checkBasicAutomation` reads: `message.method`
and the length of `JSON.stringify(message)`. -/
structure BMessage where
  method : Option String
  size : Nat
deriving DecidableEq, Repr

/-- JS `array.slice(-n)`: the last `n` elements (the whole array when it is
shorter). -/
def lastN {α : Type} (n : Nat) (l : List α) : List α := l.drop (l.length - n)

/-- The loop `for (let i = 1; i < recent.length; i++)
intervals.push(recent[i].timestamp - recent[i-1].timestamp)`. -/
def intervalsOf : List Int → List Int
  | [] => []
  | [_] => []
  | a :: b :: rest => (b - a) :: intervalsOf (b :: rest)

/-- Does `pat` occur as a contiguous substring of `l`?  (JS regex `.*pat`
containment.) -/
def containsSub (pat : List Char) : List Char → Bool
  | [] => pat.isPrefixOf []
  | c :: cs => pat.isPrefixOf (c :: cs) || containsSub pat cs

/-- `looksLikeProbing(method)`: the five case-insensitive probing regexes
`^(test|probe|check|scan|enum)`, `^(list|get|read).*config`,
`^(list|get|read).*secret`, `^(list|get|read).*key`, and
`(admin|root|sudo|system)`. -/
def looksLikeProbing (method : String) : Bool :=
  let m := method.data.map toLowerAscii
  let pre1 := (["test", "probe", "check", "scan", "enum"] : List String).any
    fun w => w.data.isPrefixOf m
  let preThen := fun (x : String) =>
    (["list", "get", "read"] : List String).any fun w =>
      w.data.isPrefixOf m && containsSub x.data (m.drop w.data.length)
  let anywhere := (["admin", "root", "sudo", "system"] : List String).any
    fun w => containsSub w.data m
  pre1 || preThen "config" || preThen "secret" || preThen "key" || anywhere

/-- `x.toFixed(0)` of an exact nonnegative rational: the nearest integer,
ties rounded to the larger `n` (ES `Number.prototype.toFixed`). -/
def fixed0 (q : ℚ) : String := toString (Int.floor (q + 1/2))

/-- `Math.sqrt(v).toFixed(0)` of an exact nonnegative rational `v`:
`round(√v) = ⌊(⌊√(4v)⌋ + 1) / 2⌋` and `⌊√(4v)⌋ = Nat.sqrt ⌊4v⌋`. -/
def sqrtFixed0 (v : ℚ) : String :=
  toString ((Nat.sqrt (Int.toNat (Int.floor (4 * v))) + 1) / 2)

/-- `BehaviorValidationLayer.checkBasicAutomation(message, now)` over the
tracked `this.recentRequests`: the 20 KB size gate first, then the
automated-timing test on the intervals of the last 5 tracked requests, then
the probing-method patterns (guarded by JS truthiness of
`message.method`). -/
def BehaviorValidationLayer.checkBasicAutomation (now : Int) (message : BMessage)
    (recentRequests : List BRequest) : ValidationResult :=
  let messageSize := message.size
  if messageSize > 20000 then
    ValidationLayer.createFailureResult "BehaviorValidationLayer" now
      ("Suspiciously large message: " ++ toString messageSize ++ " bytes")
      "MEDIUM" "OVERSIZED_MESSAGE" 1
  else
    let timing : Option ValidationResult :=
      if 5 ≤ recentRequests.length then
        let recent := lastN 5 recentRequests
        let intervals := intervalsOf (recent.map BRequest.timestamp)
        if 3 ≤ intervals.length then
          let avgInterval : ℚ :=
            (intervals.map fun i => (i : ℚ)).sum / intervals.length
          let variance : ℚ :=
            (intervals.map fun i => ((i : ℚ) - avgInterval) ^ 2).sum /
              intervals.length
          if variance < 2500 ∧ avgInterval < 2000 ∧ avgInterval > 100 then
            some (ValidationLayer.createFailureResult "BehaviorValidationLayer"
              now
              ("Automated timing pattern detected: " ++ fixed0 avgInterval ++
                "ms ±" ++ sqrtFixed0 variance ++ "ms")
              "MEDIUM" "AUTOMATED_TIMING" 1)
          else none
        else none
      else none
    match timing with
    | some r => r
    | none =>
      if (match message.method with
          | some m => !(m = "") && looksLikeProbing m
          | none => false) then
        ValidationLayer.createFailureResult "BehaviorValidationLayer" now
          ("Suspicious method pattern: " ++ message.method.getD "")
          "LOW" "SUSPICIOUS_METHOD" 1
      else ValidationLayer.createSuccessResult "BehaviorValidationLayer" now

/-! ## Canonicalizer (utils/canonicalize.js)

`canonicalizeString` and `decodeUrlsCanonical` are translated from
`utils/canonicalize.js`.  The seven helpers it imports from `./unicode.js`
and `./helper-utils.js` are modelled from the spec (§4.1), as their
implementation files are not part of the provided sources. -/

/-- Value of a hex digit character. -/
def hexVal (c : Char) : Nat :=
  if isDigitChar c then c.toNat - 48 else (toLowerAscii c).toNat - 87

/-- Fold a hex-digit list to its numeric value. -/
def hexToNat (ds : List Char) : Nat := ds.foldl (fun n c => n * 16 + hexVal c) 0

/-- Fold a decimal-digit list to its numeric value. -/
def decToNat (ds : List Char) : Nat := ds.foldl (fun n c => n * 10 + (c.toNat - 48)) 0

/-- Modelled from the spec: the fullwidth ASCII block U+FF01..U+FF5E. -/
def isFullwidthChar (c : Char) : Bool := 0xFF01 ≤ c.toNat ∧ c.toNat ≤ 0xFF5E

/-- Modelled from the spec: the stripped format/zero-width code points
U+200B..U+200D, U+2060, U+FEFF, U+202E. -/
def isCanonZeroWidth (c : Char) : Bool :=
  (0x200B ≤ c.toNat ∧ c.toNat ≤ 0x200D) ∨ c.toNat = 0x2060 ∨
    c.toNat = 0xFEFF ∨ c.toNat = 0x202E

/-- Modelled from the spec: `normalizeUnicode` = NFKC, fullwidth fold
(U+FF01..U+FF5E to ASCII), zero-width strip.  NFKC is modelled as the
identity outside the fullwidth block: the fullwidth fold is the only NFKC
effect the inputs of this development exercise. -/
def normalizeUnicode (l : List Char) : List Char :=
  (l.map fun c =>
    if isFullwidthChar c then Char.ofNat (c.toNat - 0xFEE0) else c).filter
    fun c => !isCanonZeroWidth c

/-- Modelled from the spec: one `\uXXXX`/`\xNN` escape at the position
after the backslash. -/
def escAt (rest : List Char) : Option (Char × List Char) :=
  match rest with
  | 'u' :: a :: b :: d :: e :: rest' =>
    if isHexDigitChar a && isHexDigitChar b && isHexDigitChar d &&
        isHexDigitChar e then
      some (Char.ofNat (((hexVal a * 16 + hexVal b) * 16 + hexVal d) * 16 +
        hexVal e), rest')
    else none
  | 'x' :: a :: b :: rest' =>
    if isHexDigitChar a && isHexDigitChar b then
      some (Char.ofNat (hexVal a * 16 + hexVal b), rest')
    else none
  | _ => none

/-- Modelled from the spec: the fuelled left-to-right escape-decoding scan
(fuel is input length plus one; every step consumes at least one
character). -/
def decodeUnicodeEscapesAux : Nat → List Char → List Char
  | 0, l => l
  | _ + 1, [] => []
  | fuel + 1, c :: rest =>
    if c = '\\' then
      match escAt rest with
      | some (ch, rest') => ch :: decodeUnicodeEscapesAux fuel rest'
      | none => c :: decodeUnicodeEscapesAux fuel rest
    else c :: decodeUnicodeEscapesAux fuel rest

/-- Modelled from the spec: `decodeUnicodeEscapes` decodes `\uXXXX` and
`\xNN` escape sequences literally, one left-to-right pass; malformed
escapes are left in place. -/
def decodeUnicodeEscapes (l : List Char) : List Char :=
  decodeUnicodeEscapesAux (l.length + 1) l

/-- Modelled from the spec: one named entity at the position after `&`
(common named entities `amp`, `lt`, `gt`, `quot`, `apos`, `nbsp`). -/
def namedEntityAt (rest : List Char) : Option (Char × List Char) :=
  if ['a', 'm', 'p', ';'].isPrefixOf rest then some ('&', rest.drop 4)
  else if ['l', 't', ';'].isPrefixOf rest then some ('<', rest.drop 3)
  else if ['g', 't', ';'].isPrefixOf rest then some ('>', rest.drop 3)
  else if ['q', 'u', 'o', 't', ';'].isPrefixOf rest then some ('"', rest.drop 5)
  else if ['a', 'p', 'o', 's', ';'].isPrefixOf rest then
    some ('\'', rest.drop 5)
  else if ['n', 'b', 's', 'p', ';'].isPrefixOf rest then
    some (Char.ofNat 0xA0, rest.drop 5)
  else none

/-- Modelled from the spec: a numeric entity at the position after `&#`:
decimal `&#N;` or hex `&#xH;`. -/
def numEntityAt (rest : List Char) : Option (Char × List Char) :=
  match rest with
  | 'x' :: r2 =>
    let p := munch isHexDigitChar r2
    if p.1 ≠ [] ∧ p.2.head? = some ';' then
      some (Char.ofNat (hexToNat p.1), p.2.tail)
    else none
  | 'X' :: r2 =>
    let p := munch isHexDigitChar r2
    if p.1 ≠ [] ∧ p.2.head? = some ';' then
      some (Char.ofNat (hexToNat p.1), p.2.tail)
    else none
  | _ =>
    let p := munch isDigitChar rest
    if p.1 ≠ [] ∧ p.2.head? = some ';' then
      some (Char.ofNat (decToNat p.1), p.2.tail)
    else none

/-- Modelled from the spec: the single left-to-right entity-decoding pass
(fuelled; the fuel is the input length plus one, enough since every step
consumes at least one character). -/
def decodeEntitiesAux : Nat → List Char → List Char
  | 0, l => l
  | _ + 1, [] => []
  | fuel + 1, c :: rest =>
    if c = '&' then
      match (match rest with
             | '#' :: r2 => numEntityAt r2
             | _ => namedEntityAt rest) with
      | some (ch, rest') => ch :: decodeEntitiesAux fuel rest'
      | none => c :: decodeEntitiesAux fuel rest
    else c :: decodeEntitiesAux fuel rest

/-- Modelled from the spec: `decodeEntities` decodes named, decimal and hex
HTML entities in one pass. -/
def decodeEntities (l : List Char) : List Char :=
  decodeEntitiesAux (l.length + 1) l

/-- Modelled from the spec: the Unicode spaces replaced by ASCII space
(U+00A0, U+1680, U+2000..U+200A, U+205F, U+3000). -/
def isCanonUnicodeSpace (c : Char) : Bool :=
  c.toNat = 0xA0 ∨ c.toNat = 0x1680 ∨
    (0x2000 ≤ c.toNat ∧ c.toNat ≤ 0x200A) ∨ c.toNat = 0x205F ∨ c.toNat = 0x3000

/-- Modelled from the spec: `normalizeWhitespace` maps Unicode spaces to
ASCII space and `U+2028`/`U+2029` to `\n`. -/
def normalizeWhitespace (l : List Char) : List Char :=
  l.map fun c =>
    if isCanonUnicodeSpace c then ' '
    else if c.toNat = 0x2028 ∨ c.toNat = 0x2029 then '\n'
    else c

/-- Modelled from the spec: the final zero-width sweep. -/
def removePostDecodingZeroWidth (l : List Char) : List Char :=
  l.filter fun c => !isCanonZeroWidth c

/-- Modelled from the spec: one targeted rewrite of a single-encoded
high-risk token `%ab` (hex case-insensitive) to its character. -/
def replTok (a b out : Char) : List Char → List Char
  | '%' :: x :: y :: rest =>
    if toLowerAscii x = a ∧ toLowerAscii y = b then out :: replTok a b out rest
    else '%' :: replTok a b out (x :: y :: rest)
  | c :: rest => c :: replTok a b out rest
  | [] => []

/-- Modelled from the spec: `decodeSingleUrlEncoding` performs one pass of
targeted replacements for the high-risk tokens `%3C %3E %22 %27 %2F %5C`. -/
def decodeSingleUrlEncoding (l : List Char) : List Char :=
  l |> replTok '3' 'c' '<' |> replTok '3' 'e' '>' |> replTok '2' '2' '"' |>
    replTok '2' '7' '\'' |> replTok '2' 'f' '/' |> replTok '5' 'c' '\\'

/-- Modelled from the spec: strict percent-decoding of the whole string;
`none` on any malformed `%` sequence.  Scope: single-byte (ASCII) code
points; multi-byte UTF-8 sequences are outside the modelled domain and
count as failures. -/
def pctDecodeAux : List Char → Option (List Char)
  | [] => some []
  | '%' :: x :: y :: rest =>
    if isHexDigitChar x ∧ isHexDigitChar y then
      if hexVal x * 16 + hexVal y < 128 then
        (pctDecodeAux rest).map fun r => Char.ofNat (hexVal x * 16 + hexVal y) :: r
      else none
    else none
  | '%' :: _ => none
  | c :: rest => (pctDecodeAux rest).map fun r => c :: r

/-- Modelled from the spec: `decodeURIComponentSafe` returns the strict
percent-decoding, or the input unchanged on failure. -/
def decodeURIComponentSafe (l : List Char) : List Char :=
  match pctDecodeAux l with
  | some r => r
  | none => l

/-- `decoded.replace(/%25([0-9A-F]{2})/gi, '%$1')`: leftmost,
non-overlapping, global. -/
def collapse25 : List Char → List Char
  | '%' :: '2' :: '5' :: h1 :: h2 :: rest =>
    if isHexDigitChar h1 && isHexDigitChar h2 then
      '%' :: h1 :: h2 :: collapse25 rest
    else '%' :: collapse25 ('2' :: '5' :: h1 :: h2 :: rest)
  | c :: rest => c :: collapse25 rest
  | [] => []

/-- `decoded.replace(/%252([0-9A-F])/gi, '%2$1')`. -/
def collapse252 : List Char → List Char
  | '%' :: '2' :: '5' :: '2' :: h1 :: rest =>
    if isHexDigitChar h1 then '%' :: '2' :: h1 :: collapse252 rest
    else '%' :: collapse252 ('2' :: '5' :: '2' :: h1 :: rest)
  | c :: rest => c :: collapse252 rest
  | [] => []

/-- `decoded.replace(/%2525([0-9A-F])/gi, '%25$1')`. -/
def collapse2525 : List Char → List Char
  | '%' :: '2' :: '5' :: '2' :: '5' :: h1 :: rest =>
    if isHexDigitChar h1 then '%' :: '2' :: '5' :: h1 :: collapse2525 rest
    else '%' :: collapse2525 ('2' :: '5' :: '2' :: '5' :: h1 :: rest)
  | c :: rest => c :: collapse2525 rest
  | [] => []

/-- The body of `decodeUrlsCanonical`'s while loop: fuel is the remaining
iteration budget (`iterations < maxIterations`); `prev` is the previous
iteration's value (`null` before the first pass).  Exits: the
`decoded !== prev` guard, the no-improvement `break`, or fuel exhaustion. -/
def decodeUrlsLoop : Nat → List Char → Option (List Char) → List Char
  | 0, decoded, _ => decoded
  | fuel + 1, decoded, prev =>
    if some decoded = prev then decoded
    else
      let d1 := if containsSub ['%', '2', '5'] decoded then collapse25 decoded
        else decoded
      let d2 := if containsSub ['%', '2', '5', '2'] d1 then collapse252 d1
        else d1
      let d3 := if containsSub ['%', '2', '5', '2', '5'] d2 then collapse2525 d2
        else d2
      let beforeSingle := d3
      let d4 := decodeSingleUrlEncoding d3
      let step := decodeURIComponentSafe d4
      if step = d4 ∧ d4 = beforeSingle then d4
      else decodeUrlsLoop fuel step (some decoded)

/-- `decodeUrlsCanonical(input, maxIterations = 8)`. -/
def decodeUrlsCanonical (l : List Char) : List Char :=
  decodeUrlsLoop 8 l none

/-- A character on which every canonicalizer stage is inert: ASCII and none
of `\`, `%`, `&`. -/
def CanonSafeChar (c : Char) : Prop :=
  c.toNat < 128 ∧ c ≠ '\\' ∧ c ≠ '%' ∧ c ≠ '&'

instance (c : Char) : Decidable (CanonSafeChar c) := by
  unfold CanonSafeChar
  infer_instance

/-- `canonicalizeString(input)`: the seven-step canonical order of
`utils/canonicalize.js`. -/
def canonicalizeString (input : String) : String :=
  let s1 := decodeUnicodeEscapes input.data
  let s2 := normalizeUnicode s1
  let s3 := decodeEntities s2
  let s4 := decodeUrlsCanonical s3
  let s5 := normalizeUnicode s4
  let s6 := normalizeWhitespace s5
  let s7 := removePostDecodingZeroWidth s6
  String.mk s7

theorem munch_append (p : Char → Bool) (cs : List Char) :
    (munch p cs).1 ++ (munch p cs).2 = cs := by
  induction cs with
  | nil => simp [munch]
  | cons c cs ih =>
    by_cases h : p c = true
    · simp [munch, h, ih]
    · simp [munch, h]

theorem munch_rest_head (p : Char → Bool) (cs : List Char) (c' : Char) (cs' : List Char)
    (h : (munch p cs).2 = c' :: cs') : p c' = false := by
  induction cs with
  | nil => simp [munch] at h
  | cons c cs ih =>
    by_cases hp : p c = true
    · simp [munch, hp] at h
      exact ih h
    · simp [munch, hp] at h
      obtain ⟨h1, _⟩ := h
      subst h1
      simpa using hp

theorem munch_mem (p : Char → Bool) (cs : List Char) (c : Char)
    (h : c ∈ (munch p cs).1) : c ∈ cs := by
  have := munch_append p cs
  rw [← this]
  exact List.mem_append_left _ h

theorem munch_rest_mem (p : Char → Bool) (cs : List Char) (c : Char)
    (h : c ∈ (munch p cs).2) : c ∈ cs := by
  have := munch_append p cs
  rw [← this]
  exact List.mem_append_right _ h

theorem munch_sat (p : Char → Bool) (cs : List Char) (c : Char)
    (h : c ∈ (munch p cs).1) : p c = true := by
  induction cs with
  | nil => simp [munch] at h
  | cons x cs ih =>
    by_cases hp : p x = true
    · simp [munch, hp] at h
      rcases h with h | h
      · subst h; exact hp
      · exact ih h
    · simp [munch, hp] at h

theorem stripCS_append (ps : List Char) (cs m r : List Char)
    (h : stripCS ps cs = some (m, r)) : m ++ r = cs := by
  induction ps generalizing cs m with
  | nil =>
    simp [stripCS] at h
    simp [h.1, h.2]
  | cons p ps ih =>
    cases cs with
    | nil => simp [stripCS] at h
    | cons c cs =>
      by_cases hc : c = p
      · simp only [stripCS, if_pos hc] at h
        cases hrec : stripCS ps cs with
        | none => rw [hrec] at h; simp at h
        | some pr =>
          rw [hrec] at h
          simp at h
          obtain ⟨h1, h2⟩ := h
          subst h1; subst h2
          simpa using ih cs pr.1 hrec
      · simp [stripCS, hc] at h

theorem stripCI_append (ps : List Char) (cs m r : List Char)
    (h : stripCI ps cs = some (m, r)) : m ++ r = cs := by
  induction ps generalizing cs m with
  | nil =>
    simp [stripCI] at h
    simp [h.1, h.2]
  | cons p ps ih =>
    cases cs with
    | nil => simp [stripCI] at h
    | cons c cs =>
      by_cases hc : toLowerAscii c = toLowerAscii p
      · simp only [stripCI, if_pos hc] at h
        cases hrec : stripCI ps cs with
        | none => rw [hrec] at h; simp at h
        | some pr =>
          rw [hrec] at h
          simp at h
          obtain ⟨h1, h2⟩ := h
          subst h1; subst h2
          simpa using ih cs pr.1 hrec
      · simp [stripCI, hc] at h

/-- If some character of the literal can never be produced by a character
satisfying `S`, the case-sensitive literal never matches an `S`-string. -/
theorem stripCS_none (S : Char → Prop) (ps : List Char)
    (hbad : ∃ p ∈ ps, ∀ c, S c → c ≠ p) :
    ∀ cs, (∀ c ∈ cs, S c) → stripCS ps cs = none := by
  induction ps with
  | nil => simp at hbad
  | cons p ps ih =>
    intro cs hs
    obtain ⟨q, hq, hbadq⟩ := hbad
    cases cs with
    | nil => rfl
    | cons c cs =>
      rcases List.mem_cons.mp hq with h | h
      · subst h
        have : c ≠ q := hbadq c (hs c (List.mem_cons_self c cs))
        simp [stripCS, this]
      · by_cases hc : c = p
        · have : stripCS ps cs = none :=
            ih ⟨q, h, hbadq⟩ cs (fun x hx => hs x (List.mem_cons_of_mem _ hx))
          simp [stripCS, hc, this]
        · simp [stripCS, hc]

/-- Case-insensitive analogue of `stripCS_none`. -/
theorem stripCI_none (S : Char → Prop) (ps : List Char)
    (hbad : ∃ p ∈ ps, ∀ c, S c → toLowerAscii c ≠ toLowerAscii p) :
    ∀ cs, (∀ c ∈ cs, S c) → stripCI ps cs = none := by
  induction ps with
  | nil => simp at hbad
  | cons p ps ih =>
    intro cs hs
    obtain ⟨q, hq, hbadq⟩ := hbad
    cases cs with
    | nil => rfl
    | cons c cs =>
      rcases List.mem_cons.mp hq with h | h
      · subst h
        have : toLowerAscii c ≠ toLowerAscii q := hbadq c (hs c (List.mem_cons_self c cs))
        simp [stripCI, this]
      · by_cases hc : toLowerAscii c = toLowerAscii p
        · have : stripCI ps cs = none :=
            ih ⟨q, h, hbadq⟩ cs (fun x hx => hs x (List.mem_cons_of_mem _ hx))
          simp [stripCI, hc, this]
        · simp [stripCI, hc]

/-- If the matcher never fires on strings all of whose characters satisfy
`S`, then the global replace is the identity on such strings. -/
theorem replaceScanAux_id (S : Char → Prop)
    (m : Option Char → List Char → Option (List Char × List Char))
    (repl : List Char → List Char)
    (hm : ∀ prev cs, (∀ c ∈ cs, S c) → m prev cs = none) :
    ∀ fuel prev cs, (∀ c ∈ cs, S c) → replaceScanAux m repl fuel prev cs = cs := by
  intro fuel
  induction fuel with
  | zero => intro prev cs _; rfl
  | succ n ih =>
    intro prev cs hs
    cases cs with
    | nil => rfl
    | cons c cs =>
      have hnone := hm prev (c :: cs) hs
      simp only [replaceScanAux, hnone]
      have : ∀ x ∈ cs, S x := fun x hx => hs x (List.mem_cons_of_mem _ hx)
      rw [ih (some c) cs this]

/-- Variant: the matcher may fire on `S`-clean strings, but every match it
produces is replaced by itself and splits the input. -/
theorem replaceScanAux_id_of_selfRepl (S : Char → Prop)
    (m : Option Char → List Char → Option (List Char × List Char))
    (repl : List Char → List Char)
    (hm : ∀ prev cs mat rest, (∀ c ∈ cs, S c) → m prev cs = some (mat, rest) →
      repl mat = mat ∧ mat ++ rest = cs) :
    ∀ fuel prev cs, (∀ c ∈ cs, S c) → replaceScanAux m repl fuel prev cs = cs := by
  intro fuel
  induction fuel with
  | zero => intro prev cs _; rfl
  | succ n ih =>
    intro prev cs hs
    cases cs with
    | nil => rfl
    | cons c cs =>
      cases hmat : m prev (c :: cs) with
      | none =>
        simp only [replaceScanAux, hmat]
        have : ∀ x ∈ cs, S x := fun x hx => hs x (List.mem_cons_of_mem _ hx)
        rw [ih (some c) cs this]
      | some pr =>
        obtain ⟨mat, rest⟩ := pr
        obtain ⟨hrepl, hsplit⟩ := hm prev (c :: cs) mat rest hs hmat
        simp only [replaceScanAux, hmat]
        have hrest : ∀ x ∈ rest, S x := by
          intro x hx
          exact hs x (by rw [← hsplit]; exact List.mem_append_right _ hx)
        rw [hrepl, ih _ rest hrest, hsplit]


theorem replaceAllWith_id (S : Char → Prop)
    (m : Option Char → List Char → Option (List Char × List Char))
    (repl : List Char → List Char)
    (hm : ∀ prev cs, (∀ c ∈ cs, S c) → m prev cs = none)
    (cs : List Char) (hs : ∀ c ∈ cs, S c) : replaceAllWith m repl cs = cs :=
  replaceScanAux_id S m repl hm _ none cs hs

theorem replaceAllWith_id_selfRepl (S : Char → Prop)
    (m : Option Char → List Char → Option (List Char × List Char))
    (repl : List Char → List Char)
    (hm : ∀ prev cs mat rest, (∀ c ∈ cs, S c) → m prev cs = some (mat, rest) →
      repl mat = mat ∧ mat ++ rest = cs)
    (cs : List Char) (hs : ∀ c ∈ cs, S c) : replaceAllWith m repl cs = cs :=
  replaceScanAux_id_of_selfRepl S m repl hm _ none cs hs

/-! ### Clean strings are fixed by every redaction rule

A string made of spaces and the lowercase letters `g`–`z` contains no hex
digit, quote, `@`, `:`, `_`, `-`, digit or uppercase letter, and none of the
letters of `bearer` / `authorization` / `password` / `pass` / `secret` /
`eyJ` / `AKIA`… that every rule's literal needs, so no redaction rule can
fire on it. -/

theorem safe_ne (c p : Char) (h : SafeLogChar c) (h1 : p ≠ ' ')
    (h2 : p < 'g' ∨ 'z' < p) : c ≠ p := by
  rintro rfl
  rcases h with h | ⟨h3, h4⟩
  · exact h1 h
  · rcases h2 with h2 | h2
    · exact absurd h3 (not_le.mpr h2)
    · exact absurd h4 (not_le.mpr h2)

theorem safe_toLower (c : Char) (h : SafeLogChar c) : toLowerAscii c = c := by
  have : isUpperChar c = false := by
    rcases h with h | ⟨h1, h2⟩
    · subst h; decide
    · have : ¬(c ≤ 'Z') := fun hc => absurd (le_trans h1 hc) (by decide)
      simp [isUpperChar, this]
  simp [toLowerAscii, this]

theorem safe_toLower_ne (c p : Char) (h : SafeLogChar c)
    (h1 : toLowerAscii p ≠ ' ')
    (h2 : toLowerAscii p < 'g' ∨ 'z' < toLowerAscii p) :
    toLowerAscii c ≠ toLowerAscii p := by
  rw [safe_toLower c h]
  exact safe_ne c (toLowerAscii p) h h1 h2

theorem safe_not_quote (c : Char) (h : SafeLogChar c) : isQuoteChar c = false := by
  have h1 := safe_ne c '"' h (by decide) (Or.inl (by decide))
  have h2 := safe_ne c '\'' h (by decide) (Or.inl (by decide))
  simp [isQuoteChar, h1, h2]

theorem safe_alnum_not_hex (c : Char) (h : SafeLogChar c)
    (ha : isAlnumChar c = true) : isHexDigitChar c = false := by
  rcases h with h | ⟨h1, h2⟩
  · subst h; simp [isAlnumChar, isAlphaChar, isUpperChar, isLowerChar, isDigitChar] at ha
  · have hd : isDigitChar c = false := by
      have : ¬(c ≤ '9') := fun hc => absurd (le_trans h1 hc) (by decide)
      simp [isDigitChar, this]
    have hf : ¬(c ≤ 'f') := fun hc => absurd (le_trans h1 hc) (by decide)
    have hF : ¬(c ≤ 'F') := fun hc => absurd (le_trans h1 hc) (by decide)
    simp [isHexDigitChar, hd, hf, hF]

theorem safe_suffix_of_append (pre r cs : List Char) (heq : pre ++ r = cs)
    (hs : ∀ c ∈ cs, SafeLogChar c) : ∀ c ∈ r, SafeLogChar c := by
  intro c hc
  exact hs c (by rw [← heq]; exact List.mem_append_right _ hc)

theorem matchAwsKey_none (lit : List Char)
    (hbad : ∃ p ∈ lit, ∀ c, SafeLogChar c → c ≠ p)
    (prev : Option Char) (cs : List Char) (hs : ∀ c ∈ cs, SafeLogChar c) :
    matchAwsKey lit prev cs = none := by
  have h := stripCS_none SafeLogChar lit hbad cs hs
  simp [matchAwsKey, h]

theorem matchGithubToken_none (prev : Option Char) (cs : List Char)
    (hs : ∀ c ∈ cs, SafeLogChar c) : matchGithubToken prev cs = none := by
  cases hstr : stripCS ['g', 'h'] cs with
  | none => simp [matchGithubToken, hstr]
  | some pr =>
    obtain ⟨m1, r1⟩ := pr
    have hr1 : ∀ c ∈ r1, SafeLogChar c :=
      safe_suffix_of_append m1 r1 cs (stripCS_append _ _ _ _ hstr) hs
    cases r1 with
    | nil => simp [matchGithubToken, hstr]
    | cons c2 r2 =>
      cases r2 with
      | nil => simp [matchGithubToken, hstr]
      | cons c3 r3 =>
        have hc3 : c3 ≠ '_' :=
          safe_ne c3 '_' (hr1 c3 (by simp)) (by decide) (Or.inl (by decide))
        simp [matchGithubToken, hstr, hc3]

theorem matchApiKey_none (prev : Option Char) (cs : List Char)
    (hs : ∀ c ∈ cs, SafeLogChar c) : matchApiKey prev cs = none := by
  have h := stripCI_none SafeLogChar ['s', 'k', '_']
    ⟨'_', by simp, fun c hc => safe_toLower_ne c '_' hc (by decide) (Or.inl (by decide))⟩
    cs hs
  simp [matchApiKey, h]

theorem matchLongAlnum_selfRepl (prev : Option Char) (cs mat rest : List Char)
    (hs : ∀ c ∈ cs, SafeLogChar c) (h : matchLongAlnum prev cs = some (mat, rest)) :
    hexKeyRepl mat = mat ∧ mat ++ rest = cs := by
  unfold matchLongAlnum at h
  by_cases hb : isBoundary prev cs.head? = true
  · rw [if_pos hb] at h
    by_cases hc : (32 ≤ (munch isAlnumChar cs).1.length &&
        isBoundary (munch isAlnumChar cs).1.getLast? (munch isAlnumChar cs).2.head?) = true
    · rw [if_pos hc] at h
      have hmat : mat = (munch isAlnumChar cs).1 := by
        injection h with h'
        exact (congrArg Prod.fst h').symm
      have hrest : rest = (munch isAlnumChar cs).2 := by
        injection h with h'
        exact (congrArg Prod.snd h').symm
      subst hmat; subst hrest
      refine ⟨?_, munch_append _ _⟩
      have hlen : 32 ≤ (munch isAlnumChar cs).1.length := by
        have := (Bool.and_eq_true _ _).mp hc
        exact Nat.le_of_ble_eq_true (by simpa using this.1)
      cases hm : (munch isAlnumChar cs).1 with
      | nil => simp [hm] at hlen
      | cons x xs =>
        have hx : isHexDigitChar x = false := by
          apply safe_alnum_not_hex x
          · exact hs x (munch_mem _ _ _ (by rw [hm]; simp))
          · exact munch_sat _ _ _ (by rw [hm]; simp)
        simp [hexKeyRepl, hm, hx]
    · rw [if_neg hc] at h; cases h
  · rw [if_neg hb] at h; cases h

theorem matchJwt_none (prev : Option Char) (cs : List Char)
    (hs : ∀ c ∈ cs, SafeLogChar c) : matchJwt prev cs = none := by
  have h := stripCS_none SafeLogChar ['e', 'y', 'J']
    ⟨'e', by simp, fun c hc => safe_ne c 'e' hc (by decide) (Or.inl (by decide))⟩ cs hs
  simp [matchJwt, h]

theorem matchBearerToken_none (prev : Option Char) (cs : List Char)
    (hs : ∀ c ∈ cs, SafeLogChar c) : matchBearerToken prev cs = none := by
  have h := stripCI_none SafeLogChar ['b', 'e', 'a', 'r', 'e', 'r']
    ⟨'b', by simp, fun c hc => safe_toLower_ne c 'b' hc (by decide) (Or.inl (by decide))⟩
    cs hs
  simp [matchBearerToken, h]

theorem matchAuthBasic_none (prev : Option Char) (cs : List Char)
    (hs : ∀ c ∈ cs, SafeLogChar c) : matchAuthBasic prev cs = none := by
  have h := stripCI_none SafeLogChar "authorization:".data
    ⟨'a', by simp, fun c hc => safe_toLower_ne c 'a' hc (by decide) (Or.inl (by decide))⟩
    cs hs
  simp [matchAuthBasic, h]

theorem matchAuthBearer_none (prev : Option Char) (cs : List Char)
    (hs : ∀ c ∈ cs, SafeLogChar c) : matchAuthBearer prev cs = none := by
  have h := stripCI_none SafeLogChar "authorization:".data
    ⟨'a', by simp, fun c hc => safe_toLower_ne c 'a' hc (by decide) (Or.inl (by decide))⟩
    cs hs
  simp [matchAuthBearer, h]

theorem matchDbConn_none (prev : Option Char) (cs : List Char)
    (hs : ∀ c ∈ cs, SafeLogChar c) : matchDbConn prev cs = none := by
  have hw2 : ∀ c ∈ (munch isWordChar cs).2, SafeLogChar c :=
    fun c hc => hs c (munch_rest_mem _ _ _ hc)
  have h := stripCS_none SafeLogChar [':', '/', '/']
    ⟨':', by simp, fun c hc => safe_ne c ':' hc (by decide) (Or.inl (by decide))⟩
    _ hw2
  simp [matchDbConn, h]

theorem matchPem_none (prev : Option Char) (cs : List Char)
    (hs : ∀ c ∈ cs, SafeLogChar c) : matchPem prev cs = none := by
  have h := stripCS_none SafeLogChar "-----BEGIN ".data
    ⟨'-', by simp, fun c hc => safe_ne c '-' hc (by decide) (Or.inl (by decide))⟩ cs hs
  simp [matchPem, h]

theorem matchPwdField_none (kw : List Char)
    (hbad : ∃ p ∈ kw, ∀ c, SafeLogChar c → toLowerAscii c ≠ toLowerAscii p)
    (prev : Option Char) (cs : List Char) (hs : ∀ c ∈ cs, SafeLogChar c) :
    matchPwdField kw prev cs = none := by
  cases cs with
  | nil => rfl
  | cons c rest =>
    have hq : isQuoteChar c = false := safe_not_quote c (hs c (by simp))
    have h := stripCI_none SafeLogChar kw hbad (c :: rest) hs
    simp [matchPwdField, hq, h]

theorem matchEmail_none (prev : Option Char) (cs : List Char)
    (hs : ∀ c ∈ cs, SafeLogChar c) : matchEmail prev cs = none := by
  have hr : ∀ c ∈ (munch emailLocalChar cs).2, SafeLogChar c :=
    fun c hc => hs c (munch_rest_mem _ _ _ hc)
  cases hm : (munch emailLocalChar cs).2 with
  | nil => simp [matchEmail, hm]
  | cons c2 r2 =>
    have hc2 : c2 ≠ '@' :=
      safe_ne c2 '@' (hr c2 (by rw [hm]; simp)) (by decide) (Or.inl (by decide))
    simp [matchEmail, hm, hc2]

theorem redactPII_id_of_safe (cs : List Char) (hs : ∀ c ∈ cs, SafeLogChar c) :
    redactPII cs = cs :=
  replaceAllWith_id SafeLogChar matchEmail _ matchEmail_none cs hs

theorem redactCredentials_id_of_safe (cs : List Char)
    (hs : ∀ c ∈ cs, SafeLogChar c) : redactCredentials cs = cs := by
  have bad1 : ∃ p ∈ ['A', 'K', 'I', 'A'], ∀ c, SafeLogChar c → c ≠ p :=
    ⟨'A', by simp, fun c hc => safe_ne c 'A' hc (by decide) (Or.inl (by decide))⟩
  have bad2 : ∃ p ∈ ['A', 'I', 'S', 'A'], ∀ c, SafeLogChar c → c ≠ p :=
    ⟨'A', by simp, fun c hc => safe_ne c 'A' hc (by decide) (Or.inl (by decide))⟩
  have bad3 : ∃ p ∈ ['A', 'R', 'I', 'A'], ∀ c, SafeLogChar c → c ≠ p :=
    ⟨'A', by simp, fun c hc => safe_ne c 'A' hc (by decide) (Or.inl (by decide))⟩
  have badPwd : ∃ p ∈ "password".data, ∀ c, SafeLogChar c →
      toLowerAscii c ≠ toLowerAscii p :=
    ⟨'a', by simp, fun c hc => safe_toLower_ne c 'a' hc (by decide) (Or.inl (by decide))⟩
  have badPass : ∃ p ∈ "pass".data, ∀ c, SafeLogChar c →
      toLowerAscii c ≠ toLowerAscii p :=
    ⟨'a', by simp, fun c hc => safe_toLower_ne c 'a' hc (by decide) (Or.inl (by decide))⟩
  have badSecret : ∃ p ∈ "secret".data, ∀ c, SafeLogChar c →
      toLowerAscii c ≠ toLowerAscii p :=
    ⟨'e', by simp, fun c hc => safe_toLower_ne c 'e' hc (by decide) (Or.inl (by decide))⟩
  unfold redactCredentials
  rw [replaceAllWith_id SafeLogChar _ _ (matchAwsKey_none _ bad1) cs hs,
    replaceAllWith_id SafeLogChar _ _ (matchAwsKey_none _ bad2) cs hs,
    replaceAllWith_id SafeLogChar _ _ (matchAwsKey_none _ bad3) cs hs,
    replaceAllWith_id SafeLogChar _ _ matchGithubToken_none cs hs,
    replaceAllWith_id SafeLogChar _ _ matchApiKey_none cs hs,
    replaceAllWith_id_selfRepl SafeLogChar _ _
      (fun prev cs' mat rest hs' h => matchLongAlnum_selfRepl prev cs' mat rest hs' h) cs hs,
    replaceAllWith_id SafeLogChar _ _ matchJwt_none cs hs,
    replaceAllWith_id SafeLogChar _ _ matchBearerToken_none cs hs,
    replaceAllWith_id SafeLogChar _ _ matchAuthBasic_none cs hs,
    replaceAllWith_id SafeLogChar _ _ matchAuthBearer_none cs hs,
    replaceAllWith_id SafeLogChar _ _ matchDbConn_none cs hs,
    replaceAllWith_id SafeLogChar _ _ matchPem_none cs hs,
    replaceAllWith_id SafeLogChar _ _ (matchPwdField_none _ badPwd) cs hs,
    replaceAllWith_id SafeLogChar _ _ (matchPwdField_none _ badPass) cs hs,
    replaceAllWith_id SafeLogChar _ _ (matchPwdField_none _ badSecret) cs hs]

theorem redactChars_id_of_safe (cfg : SanitizerConfig) (cs : List Char)
    (hlen : cs.length ≤ cfg.maxLogLength) (hs : ∀ c ∈ cs, SafeLogChar c) :
    ErrorSanitizer.redactChars cfg cs = cs := by
  unfold ErrorSanitizer.redactChars
  have htr : truncateToMax cfg.maxLogLength cs = cs := by
    unfold truncateToMax
    rw [if_neg (not_lt.mpr hlen)]
  rw [htr, redactPII_id_of_safe cs hs, redactCredentials_id_of_safe cs hs]

theorem redactString_fixed (cfg : SanitizerConfig) (s : String)
    (hlen : s.data.length ≤ cfg.maxLogLength) (hs : ∀ c ∈ s.data, SafeLogChar c) :
    ErrorSanitizer.redactString cfg s = s := by
  show String.mk (ErrorSanitizer.redactChars cfg s.data) = s
  rw [redactChars_id_of_safe cfg s.data hlen hs]

/-- C8 counterexample: `redact` is not idempotent.  With `maxLogLength = 8`,
the input `"a@b.cd"` is redacted to `"****EMAIL****"` (13 characters, longer
than `maxLogLength` because the email replacement grew the value), so a
second application truncates it to `"****EMAI…"`, a different string. -/
theorem c8_counterexample :
    ErrorSanitizer.redactString { enableDetailedErrors := false, maxLogLength := 8 }
        (ErrorSanitizer.redactString { enableDetailedErrors := false, maxLogLength := 8 }
          "a@b.cd") ≠
      ErrorSanitizer.redactString { enableDetailedErrors := false, maxLogLength := 8 }
        "a@b.cd" := by decide

/-- C8 amended: `redact` is idempotent on values that fit in `maxLogLength`
and contain no redactable material (here: every character is a space or one
of the letters `g`–`z`, which no credential/PII rule can match); in general
a replacement can lengthen the value past `maxLogLength` and a second
application then truncates it again. -/
theorem c8_redact_idempotent_on_clean (cfg : SanitizerConfig) (s : String)
    (hlen : s.data.length ≤ cfg.maxLogLength) (hs : ∀ c ∈ s.data, SafeLogChar c) :
    ErrorSanitizer.redactString cfg (ErrorSanitizer.redactString cfg s) =
      ErrorSanitizer.redactString cfg s := by
  rw [redactString_fixed cfg s hlen hs]
  exact redactString_fixed cfg s hlen hs

/-- C8 witness: the amended idempotence theorem applied to the production
configuration and the concrete value `"snoring song"`. -/
theorem c8_witness :
    "snoring song".data.length ≤
        (ErrorSanitizer.createProductionConfig).maxLogLength ∧
      (∀ c ∈ "snoring song".data, SafeLogChar c) ∧
      ErrorSanitizer.redactString ErrorSanitizer.createProductionConfig
          (ErrorSanitizer.redactString ErrorSanitizer.createProductionConfig
            "snoring song") =
        ErrorSanitizer.redactString ErrorSanitizer.createProductionConfig
          "snoring song" :=
  ⟨by decide, by decide,
    c8_redact_idempotent_on_clean ErrorSanitizer.createProductionConfig "snoring song"
      (by decide) (by decide)⟩

/-! ## C4: root containment for `resources/read` file paths -/

theorem splitOnSlash_no_slash (c : List Char) (h : '/' ∉ c) :
    splitOnSlash c = [c] := by
  induction c with
  | nil => rfl
  | cons x xs ih =>
    simp only [List.mem_cons] at h
    push_neg at h
    have hx : ¬ x = '/' := fun he => h.1 he.symm
    simp only [splitOnSlash, if_neg hx, ih h.2]

theorem splitOnSlash_append (a b : List Char) (h : '/' ∉ a) :
    splitOnSlash (a ++ '/' :: b) = a :: splitOnSlash b := by
  induction a with
  | nil => simp [splitOnSlash]
  | cons x a ih =>
    simp only [List.mem_cons] at h
    push_neg at h
    have hx : ¬ x = '/' := fun he => h.1 he.symm
    simp only [List.cons_append, splitOnSlash, if_neg hx, List.append_eq]
    rw [ih h.2]

theorem splitOnSlash_joinComps (comps : List (List Char)) (hne : comps ≠ [])
    (hgood : ∀ x ∈ comps, GoodComp x) :
    splitOnSlash (joinComps comps) = comps := by
  induction comps with
  | nil => exact absurd rfl hne
  | cons c rest ih =>
    cases rest with
    | nil =>
      show splitOnSlash (joinComps [c]) = [c]
      exact splitOnSlash_no_slash c (hgood c (by simp)).2.2.2.1
    | cons c2 rest2 =>
      show splitOnSlash (c ++ '/' :: joinComps (c2 :: rest2)) = _
      rw [splitOnSlash_append _ _ (hgood c (by simp)).2.2.2.1]
      rw [ih (by simp) (fun x hx => hgood x (List.mem_cons_of_mem _ hx))]

theorem splitOnSlash_joinComps_append (comps : List (List Char)) (b : List Char)
    (hne : comps ≠ []) (hgood : ∀ x ∈ comps, GoodComp x) :
    splitOnSlash (joinComps comps ++ '/' :: b) = comps ++ splitOnSlash b := by
  induction comps with
  | nil => exact absurd rfl hne
  | cons c rest ih =>
    cases rest with
    | nil =>
      show splitOnSlash (c ++ '/' :: b) = _
      rw [splitOnSlash_append _ _ (hgood c (by simp)).2.2.2.1]
      rfl
    | cons c2 rest2 =>
      show splitOnSlash ((c ++ '/' :: joinComps (c2 :: rest2)) ++ '/' :: b) = _
      rw [List.append_assoc, List.cons_append]
      rw [splitOnSlash_append _ _ (hgood c (by simp)).2.2.2.1]
      rw [show joinComps (c2 :: rest2) ++ '/' :: b =
        joinComps (c2 :: rest2) ++ '/' :: b from rfl]
      rw [ih (by simp) (fun x hx => hgood x (List.mem_cons_of_mem _ hx))]
      rfl

theorem normFold_push (ab : Bool) (comps : List (List Char))
    (hgood : ∀ x ∈ comps, GoodComp x) :
    ∀ acc, comps.foldl (normStep ab) acc = comps.reverse ++ acc := by
  induction comps with
  | nil => intro acc; rfl
  | cons c rest ih =>
    intro acc
    have hg := hgood c (by simp)
    have hstep : normStep ab acc c = c :: acc := by
      unfold normStep
      rw [if_neg (by push_neg; exact ⟨hg.1, hg.2.1⟩), if_neg hg.2.2.1]
    simp only [List.foldl_cons, hstep]
    rw [ih (fun x hx => hgood x (List.mem_cons_of_mem _ hx)) (c :: acc)]
    simp

theorem joinComps_ne_nil (comps : List (List Char)) (hne : comps ≠ [])
    (hgood : ∀ x ∈ comps, GoodComp x) : joinComps comps ≠ [] := by
  cases comps with
  | nil => exact absurd rfl hne
  | cons c rest =>
    cases rest with
    | nil => exact (hgood c (by simp)).1
    | cons c2 rest2 =>
      show c ++ '/' :: joinComps (c2 :: rest2) ≠ []
      simp [(hgood c (by simp)).1]

theorem mem_joinComps (comps : List (List Char)) (x : Char)
    (hx : x ∈ joinComps comps) : x = '/' ∨ ∃ cp ∈ comps, x ∈ cp := by
  induction comps with
  | nil => simp [joinComps] at hx
  | cons c rest ih =>
    cases rest with
    | nil =>
      right
      exact ⟨c, by simp, hx⟩
    | cons c2 rest2 =>
      rw [show joinComps (c :: c2 :: rest2) = c ++ '/' :: joinComps (c2 :: rest2)
        from rfl] at hx
      rw [List.mem_append] at hx
      rcases hx with h | h
      · exact Or.inr ⟨c, by simp, h⟩
      · rw [List.mem_cons] at h
        rcases h with h | h
        · exact Or.inl h
        · rcases ih h with h' | ⟨cp, hcp, hxc⟩
          · exact Or.inl h'
          · exact Or.inr ⟨cp, List.mem_cons_of_mem _ hcp, hxc⟩

theorem joinComps_getLast (comps : List (List Char)) (hne : comps ≠ [])
    (hgood : ∀ x ∈ comps, GoodComp x) :
    ∃ ch, (joinComps comps).getLast? = some ch ∧ ch ≠ '/' := by
  induction comps with
  | nil => exact absurd rfl hne
  | cons c rest ih =>
    cases rest with
    | nil =>
      have hc := hgood c (by simp)
      obtain ⟨ch, hch⟩ : ∃ ch, c.getLast? = some ch := by
        cases hc' : c.getLast? with
        | none => exact absurd (List.getLast?_eq_none_iff.mp hc') hc.1
        | some ch => exact ⟨ch, rfl⟩
      refine ⟨ch, hch, fun he => ?_⟩
      subst he
      obtain ⟨hnn, hcheq⟩ := List.mem_getLast?_eq_getLast hch
      exact hc.2.2.2.1 (hcheq ▸ List.getLast_mem hnn)
    | cons c2 rest2 =>
      obtain ⟨ch, hch, hne'⟩ :=
        ih (by simp) (fun x hx => hgood x (List.mem_cons_of_mem _ hx))
      refine ⟨ch, ?_, hne'⟩
      show (c ++ '/' :: joinComps (c2 :: rest2)).getLast? = some ch
      rw [List.getLast?_append_of_ne_nil _ (by simp)]
      have hjne : joinComps (c2 :: rest2) ≠ [] :=
        joinComps_ne_nil _ (by simp) (fun x hx => hgood x (List.mem_cons_of_mem _ hx))
      cases hj : joinComps (c2 :: rest2) with
      | nil => exact absurd hj hjne
      | cons j js =>
        rw [hj] at hch
        rw [List.getLast?_cons_cons]
        exact hch

theorem replaceBackslashes_id (s : String) (h : '\\' ∉ s.data) :
    replaceBackslashes s = s := by
  have hmap : s.data.map (fun c => if c = '\\' then '/' else c) = s.data := by
    rw [show s.data.map (fun c => if c = '\\' then '/' else c) = s.data.map id from
      List.map_congr_left (fun c hc =>
        if_neg (fun (he : c = '\\') => h (he ▸ hc)))]
    exact List.map_id _
  show String.mk _ = s
  rw [hmap]

theorem string_data_append (a b : String) : (a ++ b).data = a.data ++ b.data := by
  cases a
  cases b
  rfl

theorem joinComps_append_singleton (cs0 : List (List Char)) (c : List Char) :
    joinComps (cs0 ++ [c]) =
      (if cs0 = [] then c else joinComps cs0 ++ '/' :: c) := by
  induction cs0 with
  | nil => simp [joinComps]
  | cons a rest ih =>
    cases rest with
    | nil => simp [joinComps]
    | cons b rest2 =>
      rw [if_neg (by simp)]
      show a ++ '/' :: joinComps ((b :: rest2) ++ [c]) = _
      rw [ih, if_neg (by simp)]
      show _ = (a ++ '/' :: joinComps (b :: rest2)) ++ '/' :: c
      simp

theorem joinComps_length_lt (cs0 : List (List Char)) (c : List Char)
    (hc : c ≠ []) :
    (joinComps cs0).length < (joinComps (cs0 ++ [c])).length := by
  rw [joinComps_append_singleton]
  by_cases h : cs0 = []
  · subst h
    rw [if_pos rfl]
    show (0 : Nat) < c.length
    exact List.length_pos.mpr hc
  · rw [if_neg h]
    simp only [List.length_append, List.length_cons]
    omega

theorem mkAbsPath_no_backslash (comps : List (List Char))
    (hgood : ∀ x ∈ comps, GoodComp x) : '\\' ∉ (mkAbsPath comps).data := by
  intro hmem
  have hmem' : '\\' ∈ '/' :: joinComps comps := hmem
  rw [List.mem_cons] at hmem'
  rcases hmem' with h | h
  · exact absurd h (by decide)
  · rcases mem_joinComps comps '\\' h with h' | ⟨cp, hcp, hxc⟩
    · exact absurd h' (by decide)
    · exact (hgood cp hcp).2.2.2.2 hxc

theorem normStep_nil_comp (ab : Bool) : normStep ab [] [] = [] := by
  simp [normStep]

theorem posixNormalize_mkAbsPath (comps : List (List Char)) (hne : comps ≠ [])
    (hgood : ∀ x ∈ comps, GoodComp x) :
    posixNormalize (mkAbsPath comps) = mkAbsPath comps := by
  have hjne : joinComps comps ≠ [] := joinComps_ne_nil comps hne hgood
  have hsne : mkAbsPath comps ≠ "" := by
    intro he
    exact List.cons_ne_nil '/' (joinComps comps) (congrArg String.data he)
  obtain ⟨ch, hch, hchne⟩ := joinComps_getLast comps hne hgood
  have hhead : headIsSlash ('/' :: joinComps comps) = true := rfl
  have hlast : lastIsSlash ('/' :: joinComps comps) = false := by
    unfold lastIsSlash
    cases hj : joinComps comps with
    | nil => exact absurd hj hjne
    | cons j js =>
      rw [List.getLast?_cons_cons]
      rw [hj] at hch
      rw [hch]
      exact decide_eq_false (by simp [hchne])
  have hsplit : splitOnSlash ('/' :: joinComps comps) = [] :: comps := by
    have h1 : splitOnSlash ('/' :: joinComps comps) =
        [] :: splitOnSlash (joinComps comps) := by
      simp [splitOnSlash]
    rw [h1, splitOnSlash_joinComps comps hne hgood]
  unfold posixNormalize
  rw [if_neg hsne]
  show (let cs := (mkAbsPath comps).data
        let isAbs : Bool := headIsSlash cs
        let trailing : Bool := lastIsSlash cs
        let comps' := ((splitOnSlash cs).foldl (normStep (!isAbs)) []).reverse
        let body := joinComps comps'
        if body = [] then
          (if isAbs then "/" else if trailing then "./" else ".")
        else
          String.mk ((if isAbs then '/' :: body else body) ++
            (if trailing then ['/'] else []))) = mkAbsPath comps
  have hdata : (mkAbsPath comps).data = '/' :: joinComps comps := rfl
  simp only [hdata, hhead, hlast, hsplit, Bool.not_true, List.foldl_cons,
    normStep_nil_comp, normFold_push false comps hgood, List.append_nil,
    List.reverse_reverse, if_neg hjne, Bool.false_eq_true, if_false, if_true]
  rfl

theorem posixNormalize_dotdot (cs0 : List (List Char)) (c : List Char)
    (hgood : ∀ x ∈ cs0 ++ [c], GoodComp x) :
    posixNormalize (mkAbsPath (cs0 ++ [c]) ++ "/..") = mkAbsPath cs0 := by
  have hgood0 : ∀ x ∈ cs0, GoodComp x :=
    fun x hx => hgood x (by simp [hx])
  have hc : GoodComp c := hgood c (by simp)
  have hdata : (mkAbsPath (cs0 ++ [c]) ++ "/..").data =
      '/' :: (joinComps (cs0 ++ [c]) ++ ['/', '.', '.']) := by
    rw [string_data_append]
    rfl
  have hsne : mkAbsPath (cs0 ++ [c]) ++ "/.." ≠ "" := by
    intro he
    have := congrArg String.data he
    rw [hdata] at this
    simp at this
  have hhead : headIsSlash ('/' :: (joinComps (cs0 ++ [c]) ++ ['/', '.', '.'])) =
      true := rfl
  have hlast : lastIsSlash ('/' :: (joinComps (cs0 ++ [c]) ++ ['/', '.', '.'])) =
      false := by
    unfold lastIsSlash
    rw [show '/' :: (joinComps (cs0 ++ [c]) ++ ['/', '.', '.']) =
      ('/' :: joinComps (cs0 ++ [c])) ++ ['/', '.', '.'] from rfl]
    rw [List.getLast?_append_of_ne_nil _ (by simp)]
    rfl
  have hsplit : splitOnSlash ('/' :: (joinComps (cs0 ++ [c]) ++ ['/', '.', '.'])) =
      [] :: ((cs0 ++ [c]) ++ [['.', '.']]) := by
    have h1 : splitOnSlash ('/' :: (joinComps (cs0 ++ [c]) ++ ['/', '.', '.'])) =
        [] :: splitOnSlash (joinComps (cs0 ++ [c]) ++ ['/', '.', '.']) := by
      simp [splitOnSlash]
    rw [h1]
    rw [show joinComps (cs0 ++ [c]) ++ ['/', '.', '.'] =
      joinComps (cs0 ++ [c]) ++ '/' :: ['.', '.'] from rfl]
    rw [splitOnSlash_joinComps_append (cs0 ++ [c]) ['.', '.'] (by simp) hgood]
    rfl
  have hstep : normStep false (c :: cs0.reverse) ['.', '.'] = cs0.reverse := by
    unfold normStep
    rw [if_neg (by simp), if_pos rfl]
    show (if c = ['.', '.'] then _ else cs0.reverse) = cs0.reverse
    rw [if_neg hc.2.2.1]
  unfold posixNormalize
  rw [if_neg hsne]
  show (let cs := (mkAbsPath (cs0 ++ [c]) ++ "/..").data
        let isAbs : Bool := headIsSlash cs
        let trailing : Bool := lastIsSlash cs
        let comps' := ((splitOnSlash cs).foldl (normStep (!isAbs)) []).reverse
        let body := joinComps comps'
        if body = [] then
          (if isAbs then "/" else if trailing then "./" else ".")
        else
          String.mk ((if isAbs then '/' :: body else body) ++
            (if trailing then ['/'] else []))) = mkAbsPath cs0
  simp only [hdata, hhead, hlast, hsplit, Bool.not_true, List.foldl_cons,
    List.foldl_nil, List.foldl_append, normStep_nil_comp,
    normFold_push false (cs0 ++ [c]) hgood, List.append_nil, List.reverse_append,
    List.reverse_cons, List.reverse_nil, List.nil_append, List.cons_append,
    hstep, List.reverse_reverse, Bool.false_eq_true, if_false, if_true,
    eq_self_iff_true]
  by_cases h0 : cs0 = []
  · subst h0
    rfl
  · have hjne0 : joinComps cs0 ≠ [] := joinComps_ne_nil cs0 h0 hgood0
    simp only [if_neg hjne0, List.append_nil]
    rfl

theorem strStartsWith_false_of_lt (s pre : String)
    (h : s.data.length < pre.data.length) : strStartsWith s pre = false := by
  unfold strStartsWith
  cases hp : pre.data.isPrefixOf s.data
  · rfl
  · exfalso
    have hpre := List.isPrefixOf_iff_prefix.mp hp
    have := hpre.length_le
    omega

theorem string_ne_of_data_length_lt (a b : String)
    (h : a.data.length < b.data.length) : a ≠ b := by
  intro he
  rw [he] at h
  omega

theorem isUnderAllowedRoots_self (comps : List (List Char)) (hne : comps ≠ [])
    (hgood : ∀ x ∈ comps, GoodComp x) :
    isUnderAllowedRoots (mkAbsPath comps) [mkAbsPath comps] = true := by
  have hX : replaceBackslashes (posixNormalize (mkAbsPath comps)) =
      mkAbsPath comps := by
    rw [posixNormalize_mkAbsPath comps hne hgood]
    exact replaceBackslashes_id _ (mkAbsPath_no_backslash comps hgood)
  unfold isUnderAllowedRoots
  simp [hX]

theorem isUnderAllowedRoots_dotdot (cs0 : List (List Char)) (c : List Char)
    (hgood : ∀ x ∈ cs0 ++ [c], GoodComp x) :
    isUnderAllowedRoots (mkAbsPath (cs0 ++ [c]) ++ "/..")
      [mkAbsPath (cs0 ++ [c])] = false := by
  have hgood0 : ∀ x ∈ cs0, GoodComp x := fun x hx => hgood x (by simp [hx])
  have hP : replaceBackslashes (posixNormalize (mkAbsPath (cs0 ++ [c]) ++ "/..")) =
      mkAbsPath cs0 := by
    rw [posixNormalize_dotdot cs0 c hgood]
    exact replaceBackslashes_id _ (mkAbsPath_no_backslash cs0 hgood0)
  have hR : replaceBackslashes (posixNormalize (mkAbsPath (cs0 ++ [c]))) =
      mkAbsPath (cs0 ++ [c]) := by
    rw [posixNormalize_mkAbsPath (cs0 ++ [c]) (by simp) hgood]
    exact replaceBackslashes_id _ (mkAbsPath_no_backslash (cs0 ++ [c]) hgood)
  have hlen : (mkAbsPath cs0).data.length <
      (mkAbsPath (cs0 ++ [c])).data.length := by
    have h1 : (mkAbsPath cs0).data.length = (joinComps cs0).length + 1 := by
      simp [mkAbsPath]
    have h2 : (mkAbsPath (cs0 ++ [c])).data.length =
        (joinComps (cs0 ++ [c])).length + 1 := by
      simp [mkAbsPath]
    have h3 := joinComps_length_lt cs0 c (hgood c (by simp)).1
    omega
  unfold isUnderAllowedRoots
  simp only [List.any_cons, List.any_nil, Bool.or_false, hP, hR]
  have hne' : mkAbsPath cs0 ≠ mkAbsPath (cs0 ++ [c]) :=
    string_ne_of_data_length_lt _ _ hlen
  rw [decide_eq_false hne', Bool.false_or]
  by_cases hE : strEndsWith (mkAbsPath (cs0 ++ [c])) "/" = true
  · rw [if_pos hE]
    exact strStartsWith_false_of_lt _ _ hlen
  · rw [if_neg hE]
    apply strStartsWith_false_of_lt
    rw [string_data_append]
    simp only [List.length_append]
    have h4 : ("/" : String).data.length = 1 := rfl
    omega

/-- **C4** (amended): for a normalized absolute rootDir `/c1/…/cn` with at
least one component, each component nonempty, not `.` or `..`, and free of
slashes and backslashes, the `resources/read` file-scheme policy check
behaves as claimed: a derived absolute path equal to the rootDir passes
root containment and the whole check (no deny-glob match), while the path
`rootDir + "/.."` fails containment and `validateFileScheme` reports
violation type `RESOURCE_POLICY_VIOLATION` for it, whatever deny globs are
configured.  (The unamended claim, quantified over arbitrary rootDirs, is
refuted by the filesystem root `/`.) -/
theorem c4_root_containment (cs0 : List (List Char)) (c : List Char)
    (hgood : ∀ x ∈ cs0 ++ [c], GoodComp x) (globs : List (String → Bool)) :
    isUnderAllowedRoots (mkAbsPath (cs0 ++ [c])) [mkAbsPath (cs0 ++ [c])] = true ∧
    (validateFileSchemeOnPath (mkAbsPath (cs0 ++ [c]))
      ⟨[mkAbsPath (cs0 ++ [c])], [], none⟩).passed = true ∧
    isUnderAllowedRoots (mkAbsPath (cs0 ++ [c]) ++ "/..")
      [mkAbsPath (cs0 ++ [c])] = false ∧
    (validateFileSchemeOnPath (mkAbsPath (cs0 ++ [c]) ++ "/..")
      ⟨[mkAbsPath (cs0 ++ [c])], globs, none⟩).passed = false ∧
    (validateFileSchemeOnPath (mkAbsPath (cs0 ++ [c]) ++ "/..")
      ⟨[mkAbsPath (cs0 ++ [c])], globs, none⟩).violationType =
      some "RESOURCE_POLICY_VIOLATION" := by
  have hself := isUnderAllowedRoots_self (cs0 ++ [c]) (by simp) hgood
  have hdd := isUnderAllowedRoots_dotdot cs0 c hgood
  refine ⟨hself, ?_, hdd, ?_, ?_⟩
  · unfold validateFileSchemeOnPath
    rw [if_neg (by simp), if_neg (by rw [hself]; simp),
      if_neg (by simp [matchesDenyGlobs])]
  · unfold validateFileSchemeOnPath
    rw [if_neg (by simp), if_pos (show (!isUnderAllowedRoots
      (mkAbsPath (cs0 ++ [c]) ++ "/..") [mkAbsPath (cs0 ++ [c])]) = true by
        rw [hdd]
        rfl)]
  · unfold validateFileSchemeOnPath
    rw [if_neg (by simp), if_pos (show (!isUnderAllowedRoots
      (mkAbsPath (cs0 ++ [c]) ++ "/..") [mkAbsPath (cs0 ++ [c])]) = true by
        rw [hdd]
        rfl)]

/-- Witness for C4 at the concrete rootDir `/data/safe`. -/
theorem c4_witness :
    (∀ x ∈ [['d','a','t','a']] ++ [['s','a','f','e']], GoodComp x) ∧
    (isUnderAllowedRoots (mkAbsPath ([['d','a','t','a']] ++ [['s','a','f','e']]))
      [mkAbsPath ([['d','a','t','a']] ++ [['s','a','f','e']])] = true ∧
    (validateFileSchemeOnPath (mkAbsPath ([['d','a','t','a']] ++ [['s','a','f','e']]))
      ⟨[mkAbsPath ([['d','a','t','a']] ++ [['s','a','f','e']])], [], none⟩).passed
      = true ∧
    isUnderAllowedRoots
      (mkAbsPath ([['d','a','t','a']] ++ [['s','a','f','e']]) ++ "/..")
      [mkAbsPath ([['d','a','t','a']] ++ [['s','a','f','e']])] = false ∧
    (validateFileSchemeOnPath
      (mkAbsPath ([['d','a','t','a']] ++ [['s','a','f','e']]) ++ "/..")
      ⟨[mkAbsPath ([['d','a','t','a']] ++ [['s','a','f','e']])], [], none⟩).passed
      = false ∧
    (validateFileSchemeOnPath
      (mkAbsPath ([['d','a','t','a']] ++ [['s','a','f','e']]) ++ "/..")
      ⟨[mkAbsPath ([['d','a','t','a']] ++ [['s','a','f','e']])], [],
        none⟩).violationType = some "RESOURCE_POLICY_VIOLATION") :=
  ⟨by decide,
   c4_root_containment [['d','a','t','a']] ['s','a','f','e'] (by decide) []⟩

/-- **C4** counterexample: with rootDir `/` (the filesystem root), the
claim's boundary fails: the path `"/" + "/.."` normalizes to `/`, which IS
under the allowed root, and the whole file-scheme check passes instead of
failing with RESOURCE_POLICY_VIOLATION. -/
theorem c4_counterexample :
    isUnderAllowedRoots ("/" ++ "/..") ["/"] = true ∧
    (validateFileSchemeOnPath ("/" ++ "/..") ⟨["/"], [], none⟩).passed = true := by
  decide

/-! ## C9: automated-timing detection in the behavior layer -/

theorem intervalsOf_length : ∀ l : List Int, (intervalsOf l).length = l.length - 1
  | [] => rfl
  | [_] => rfl
  | a :: b :: rest => by
    have ih := intervalsOf_length (b :: rest)
    show ((b - a) :: intervalsOf (b :: rest)).length = _
    simp only [List.length_cons] at ih ⊢
    omega

theorem lastN_length {α : Type} (n : Nat) (l : List α) :
    (lastN n l).length = min n l.length := by
  unfold lastN
  rw [List.length_drop]
  omega

/-- **C9** (amended): in `checkBasicAutomation`, when the message is not
oversized (`JSON.stringify` length ≤ 20000) and at least 5 requests are
tracked, and the 4 inter-arrival intervals of the last 5 tracked requests
have mean STRICTLY between 100 and 2000 ms and variance < 2500 ms²
(equivalently `stdDev < 50` ms), the check fails with severity MEDIUM and
violation type AUTOMATED_TIMING.  (The spec's closed bound
`mean ∈ [100, 2000]` is refuted at mean exactly 2000: the code's tests are
strict.) -/
theorem c9_automated_timing (now : Int) (message : BMessage)
    (reqs : List BRequest) (avg variance : ℚ)
    (hm : message.size ≤ 20000) (h5 : 5 ≤ reqs.length)
    (havg : avg = ((intervalsOf ((lastN 5 reqs).map BRequest.timestamp)).map
      fun i => (i : ℚ)).sum /
      (intervalsOf ((lastN 5 reqs).map BRequest.timestamp)).length)
    (hvar : variance = ((intervalsOf ((lastN 5 reqs).map BRequest.timestamp)).map
      fun i => ((i : ℚ) - avg) ^ 2).sum /
      (intervalsOf ((lastN 5 reqs).map BRequest.timestamp)).length)
    (h1 : variance < 2500) (h2 : avg < 2000) (h3 : 100 < avg) :
    (BehaviorValidationLayer.checkBasicAutomation now message reqs).passed
      = false ∧
    (BehaviorValidationLayer.checkBasicAutomation now message reqs).severity
      = "MEDIUM" ∧
    (BehaviorValidationLayer.checkBasicAutomation now message reqs).violationType
      = some "AUTOMATED_TIMING" := by
  have hnot : ¬ (message.size > 20000) := by omega
  have hcond3 : 3 ≤ (intervalsOf ((lastN 5 reqs).map BRequest.timestamp)).length := by
    rw [intervalsOf_length, List.length_map, lastN_length]
    omega
  unfold BehaviorValidationLayer.checkBasicAutomation
  simp only [if_neg hnot, if_pos h5, if_pos hcond3]
  rw [← havg, ← hvar]
  rw [if_pos (show variance < 2500 ∧ avg < 2000 ∧ avg > 100 from ⟨h1, h2, h3⟩)]
  exact ⟨rfl, rfl, rfl⟩

/-- Witness for C9: five requests 500 ms apart (mean 500, variance 0). -/
theorem c9_witness :
    (BehaviorValidationLayer.checkBasicAutomation 2000 ⟨some "tools/call", 200⟩
      [⟨0, some "tools/call", 200⟩, ⟨500, some "tools/call", 200⟩,
       ⟨1000, some "tools/call", 200⟩, ⟨1500, some "tools/call", 200⟩,
       ⟨2000, some "tools/call", 200⟩]).passed = false ∧
    (BehaviorValidationLayer.checkBasicAutomation 2000 ⟨some "tools/call", 200⟩
      [⟨0, some "tools/call", 200⟩, ⟨500, some "tools/call", 200⟩,
       ⟨1000, some "tools/call", 200⟩, ⟨1500, some "tools/call", 200⟩,
       ⟨2000, some "tools/call", 200⟩]).severity = "MEDIUM" ∧
    (BehaviorValidationLayer.checkBasicAutomation 2000 ⟨some "tools/call", 200⟩
      [⟨0, some "tools/call", 200⟩, ⟨500, some "tools/call", 200⟩,
       ⟨1000, some "tools/call", 200⟩, ⟨1500, some "tools/call", 200⟩,
       ⟨2000, some "tools/call", 200⟩]).violationType = some "AUTOMATED_TIMING" :=
  c9_automated_timing 2000 ⟨some "tools/call", 200⟩
    [⟨0, some "tools/call", 200⟩, ⟨500, some "tools/call", 200⟩,
     ⟨1000, some "tools/call", 200⟩, ⟨1500, some "tools/call", 200⟩,
     ⟨2000, some "tools/call", 200⟩] 500 0
    (by decide) (by decide)
    (by
      rw [show intervalsOf ((lastN 5 ([⟨0, some "tools/call", 200⟩,
        ⟨500, some "tools/call", 200⟩, ⟨1000, some "tools/call", 200⟩,
        ⟨1500, some "tools/call", 200⟩, ⟨2000, some "tools/call", 200⟩]
        : List BRequest)).map BRequest.timestamp) = [500, 500, 500, 500] from by
          decide]
      norm_num [List.map_cons, List.map_nil, List.sum_cons, List.sum_nil,
        List.length_cons, List.length_nil])
    (by
      rw [show intervalsOf ((lastN 5 ([⟨0, some "tools/call", 200⟩,
        ⟨500, some "tools/call", 200⟩, ⟨1000, some "tools/call", 200⟩,
        ⟨1500, some "tools/call", 200⟩, ⟨2000, some "tools/call", 200⟩]
        : List BRequest)).map BRequest.timestamp) = [500, 500, 500, 500] from by
          decide]
      norm_num [List.map_cons, List.map_nil, List.sum_cons, List.sum_nil,
        List.length_cons, List.length_nil])
    (by norm_num) (by norm_num) (by norm_num)

theorem checkBasicAutomation_pass (now : Int) (message : BMessage)
    (reqs : List BRequest) (avg variance : ℚ)
    (hm : message.size ≤ 20000) (h5 : 5 ≤ reqs.length)
    (havg : avg = ((intervalsOf ((lastN 5 reqs).map BRequest.timestamp)).map
      fun i => (i : ℚ)).sum /
      (intervalsOf ((lastN 5 reqs).map BRequest.timestamp)).length)
    (hvar : variance = ((intervalsOf ((lastN 5 reqs).map BRequest.timestamp)).map
      fun i => ((i : ℚ) - avg) ^ 2).sum /
      (intervalsOf ((lastN 5 reqs).map BRequest.timestamp)).length)
    (hfail : ¬ (variance < 2500 ∧ avg < 2000 ∧ avg > 100))
    (hmethod : (match message.method with
      | some m => !(m = "") && looksLikeProbing m
      | none => false) = false) :
    BehaviorValidationLayer.checkBasicAutomation now message reqs =
      ValidationLayer.createSuccessResult "BehaviorValidationLayer" now := by
  have hnot : ¬ (message.size > 20000) := by omega
  have hcond3 : 3 ≤ (intervalsOf ((lastN 5 reqs).map BRequest.timestamp)).length := by
    rw [intervalsOf_length, List.length_map, lastN_length]
    omega
  unfold BehaviorValidationLayer.checkBasicAutomation
  simp only [if_neg hnot, if_pos h5, if_pos hcond3]
  rw [← havg, ← hvar, if_neg hfail]
  simp only [hmethod, Bool.false_eq_true, if_neg not_false]

/-- **C9** counterexample: five requests exactly 2000 ms apart.  The mean
interval is 2000 ∈ [100, 2000] and the standard deviation is 0 < 50, so the
claim demands a MEDIUM AUTOMATED_TIMING failure, but `checkBasicAutomation`
requires `avgInterval < 2000` STRICTLY and returns a passing result. -/
theorem c9_counterexample :
    (let reqs : List BRequest :=
      [⟨0, some "echo", 100⟩, ⟨2000, some "echo", 100⟩, ⟨4000, some "echo", 100⟩,
       ⟨6000, some "echo", 100⟩, ⟨8000, some "echo", 100⟩]
     let ints := intervalsOf ((lastN 5 reqs).map BRequest.timestamp)
     let avg : ℚ := (ints.map fun i => (i : ℚ)).sum / ints.length
     let variance : ℚ := (ints.map fun i => ((i : ℚ) - avg) ^ 2).sum / ints.length
     (100 : ℚ) ≤ avg ∧ avg ≤ 2000 ∧ variance < 2500 ∧
     (BehaviorValidationLayer.checkBasicAutomation 8000 ⟨some "echo", 100⟩
       reqs).passed = true ∧
     (BehaviorValidationLayer.checkBasicAutomation 8000 ⟨some "echo", 100⟩
       reqs).violationType = none) := by
  have hints : intervalsOf ((lastN 5 ([⟨0, some "echo", 100⟩,
      ⟨2000, some "echo", 100⟩, ⟨4000, some "echo", 100⟩, ⟨6000, some "echo", 100⟩,
      ⟨8000, some "echo", 100⟩] : List BRequest)).map BRequest.timestamp) =
      [2000, 2000, 2000, 2000] := by
    decide
  have havg : ((intervalsOf ((lastN 5 ([⟨0, some "echo", 100⟩,
      ⟨2000, some "echo", 100⟩, ⟨4000, some "echo", 100⟩, ⟨6000, some "echo", 100⟩,
      ⟨8000, some "echo", 100⟩] : List BRequest)).map BRequest.timestamp)).map
      fun i => (i : ℚ)).sum /
      ((intervalsOf ((lastN 5 ([⟨0, some "echo", 100⟩, ⟨2000, some "echo", 100⟩,
      ⟨4000, some "echo", 100⟩, ⟨6000, some "echo", 100⟩, ⟨8000, some "echo", 100⟩]
      : List BRequest)).map BRequest.timestamp)).length : ℚ) = 2000 := by
    rw [hints]
    norm_num [List.map_cons, List.map_nil, List.sum_cons, List.sum_nil,
      List.length_cons, List.length_nil]
  have heval : BehaviorValidationLayer.checkBasicAutomation 8000
      ⟨some "echo", 100⟩ ([⟨0, some "echo", 100⟩, ⟨2000, some "echo", 100⟩,
      ⟨4000, some "echo", 100⟩, ⟨6000, some "echo", 100⟩, ⟨8000, some "echo", 100⟩]
      : List BRequest) =
      ValidationLayer.createSuccessResult "BehaviorValidationLayer" 8000 := by
    refine checkBasicAutomation_pass 8000 ⟨some "echo", 100⟩ _ 2000 0
      (by decide) (by decide) havg.symm ?_ ?_ (by decide)
    · rw [hints]
      norm_num [List.map_cons, List.map_nil, List.sum_cons, List.sum_nil,
        List.length_cons, List.length_nil]
    · norm_num
  refine ⟨?_, ?_, ?_, ?_, ?_⟩
  · rw [havg]
    norm_num
  · rw [havg]
  · rw [havg, hints]
    norm_num [List.map_cons, List.map_nil, List.sum_cons, List.sum_nil,
      List.length_cons, List.length_nil]
  · rw [heval]
    rfl
  · rw [heval]
    rfl

/-! ## C6 and C10: `SecureTransport` and sanitized error responses -/

theorem hexDigit_isHex (m : Nat) : isHexDigitChar (hexDigit (m % 16)) = true := by
  have h : m % 16 < 16 := Nat.mod_lt _ (by decide)
  have hall : ∀ k, k < 16 → isHexDigitChar (hexDigit k) = true := by decide
  exact hall _ h

theorem generatePublicToken_spec (randToken : List Nat) :
    (ErrorSanitizer.generatePublicToken randToken).length = 2 * randToken.length ∧
    ∀ c ∈ (ErrorSanitizer.generatePublicToken randToken).data,
      isHexDigitChar c = true := by
  constructor
  · show ((randToken.map byteToHex).flatten).length = 2 * randToken.length
    induction randToken with
    | nil => rfl
    | cons b bs ih =>
      simp only [List.map_cons, List.flatten_cons, List.length_append, ih]
      simp [byteToHex]
      omega
  · intro c hc
    show isHexDigitChar c = true
    have hc' : c ∈ (randToken.map byteToHex).flatten := hc
    rw [List.mem_flatten] at hc'
    obtain ⟨l, hl, hcl⟩ := hc'
    rw [List.mem_map] at hl
    obtain ⟨b, _, hb⟩ := hl
    subst hb
    simp only [byteToHex, List.mem_cons, List.not_mem_nil, or_false] at hcl
    rcases hcl with h | h
    · subst h; exact hexDigit_isHex (b / 16)
    · subst h; exact hexDigit_isHex b

/-- C6 (amended): for every blocked inbound request (method and id present,
validator returns `allowed = false`), the wrapper sends exactly one
sanitized JSON-RPC error response and forwards nothing; the response's `id`
equals the request's id, its code is `-32000` for `RATE_LIMIT_EXCEEDED`,
`-32603` for `INTERNAL_ERROR` and `-32602` otherwise (after the
`violationType || 'POLICY_VIOLATION'` default), its `data.token` is the
12-lower-hex-character encoding of the 6 fresh CSPRNG bytes, and
`data.retryAfterMs = 60000` exactly for `RATE_LIMIT_EXCEEDED`.  Uniqueness
of the token across the process run is **not** guaranteed — the token is a
plain random draw, see the counterexample. -/
theorem c6_blocked_request (cfg : SanitizerConfig)
    (validator : TMessage → Except Unit VResult) (m : TMessage) (vr : VResult)
    (i : RpcId) (randToken : List Nat) (msgByte : Nat) (ts : String)
    (hm : m.method.isSome = true) (hi : m.id = some i)
    (hok : validator m = Except.ok vr) (hblock : vr.allowed = false)
    (hlen : randToken.length = 6) :
    (SecureTransport.handleMessage cfg validator m randToken msgByte ts).sent =
      [SecureTransport.sendBlockedResponse cfg (some i) vr randToken msgByte ts] ∧
    (SecureTransport.handleMessage cfg validator m randToken msgByte ts).forwarded =
      [] ∧
    ∀ resp ∈ (SecureTransport.handleMessage cfg validator m randToken msgByte ts).sent,
      resp.id = i ∧
      resp.code =
        (if strOrDefault vr.violationType "POLICY_VIOLATION" = "RATE_LIMIT_EXCEEDED"
          then -32000
          else if strOrDefault vr.violationType "POLICY_VIOLATION" = "INTERNAL_ERROR"
          then -32603
          else -32602) ∧
      ∃ d, resp.data = some d ∧ d.token.length = 12 ∧
        (∀ c ∈ d.token.data, isHexDigitChar c = true) ∧
        (d.retryAfterMs = some 60000 ↔
          strOrDefault vr.violationType "POLICY_VIOLATION" = "RATE_LIMIT_EXCEEDED") := by
  have hmt : SecureTransport.getMessageType m = MessageType.request := by
    simp [SecureTransport.getMessageType, hm, hi]
  have hout : SecureTransport.handleMessage cfg validator m randToken msgByte ts =
      { sent := [SecureTransport.sendBlockedResponse cfg m.id vr randToken msgByte ts],
        forwarded := [] } := by
    simp only [SecureTransport.handleMessage, hmt, SecureTransport.validateMessage, hok,
      hblock]
    simp
  rw [hout, hi]
  refine ⟨rfl, rfl, ?_⟩
  intro resp hresp
  simp only [List.mem_singleton] at hresp
  subst hresp
  obtain ⟨htlen, hthex⟩ := generatePublicToken_spec randToken
  refine ⟨rfl, rfl, ⟨_, rfl, ?_, hthex, ?_⟩⟩
  · rw [htlen, hlen]
  · show (if strOrDefault vr.violationType "POLICY_VIOLATION" = "RATE_LIMIT_EXCEEDED"
        then some 60000 else none) = some 60000 ↔ _
    by_cases hvt : strOrDefault vr.violationType "POLICY_VIOLATION" =
        "RATE_LIMIT_EXCEEDED"
    · simp [hvt]
    · simp [hvt]

/-- C6 witness: a blocked `tools/call` request with id 9 and violation type
`RATE_LIMIT_EXCEEDED` (so the code is `-32000` and `retryAfterMs` present). -/
theorem c6_witness :
    (SecureTransport.handleMessage ErrorSanitizer.createProductionConfig
        (fun _ => Except.ok ⟨false, false, some "too many", some "HIGH",
          some "RATE_LIMIT_EXCEEDED"⟩)
        ⟨some "tools/call", some (RpcId.num 9), false, false⟩
        [14, 91, 203, 0, 7, 255] 1 "2026-01-01T00:00:00.000Z").sent =
      [SecureTransport.sendBlockedResponse ErrorSanitizer.createProductionConfig
        (some (RpcId.num 9))
        ⟨false, false, some "too many", some "HIGH", some "RATE_LIMIT_EXCEEDED"⟩
        [14, 91, 203, 0, 7, 255] 1 "2026-01-01T00:00:00.000Z"] ∧
    ∀ resp ∈ (SecureTransport.handleMessage ErrorSanitizer.createProductionConfig
        (fun _ => Except.ok ⟨false, false, some "too many", some "HIGH",
          some "RATE_LIMIT_EXCEEDED"⟩)
        ⟨some "tools/call", some (RpcId.num 9), false, false⟩
        [14, 91, 203, 0, 7, 255] 1 "2026-01-01T00:00:00.000Z").sent,
      resp.id = RpcId.num 9 ∧ resp.code = -32000 := by
  have h := c6_blocked_request ErrorSanitizer.createProductionConfig
    (fun _ => Except.ok ⟨false, false, some "too many", some "HIGH",
      some "RATE_LIMIT_EXCEEDED"⟩)
    ⟨some "tools/call", some (RpcId.num 9), false, false⟩
    ⟨false, false, some "too many", some "HIGH", some "RATE_LIMIT_EXCEEDED"⟩
    (RpcId.num 9) [14, 91, 203, 0, 7, 255] 1 "2026-01-01T00:00:00.000Z"
    (by decide) rfl rfl rfl (by decide)
  refine ⟨h.1, ?_⟩
  intro resp hresp
  obtain ⟨hid, hcode, _⟩ := h.2.2 resp hresp
  exact ⟨hid, by rw [hcode]; decide⟩

/-- C6 counterexample: the public token is a plain 6-byte CSPRNG draw, so
two distinct blocked requests in the same run whose draws coincide receive
identical `data.token` values — the token is not unique across the process
run. -/
theorem c6_counterexample :
    ((SecureTransport.handleMessage ErrorSanitizer.createProductionConfig
        (fun _ => Except.ok ⟨false, false, some "bad", some "HIGH",
          some "XSS_ATTEMPT"⟩)
        ⟨some "tools/call", some (RpcId.num 1), false, false⟩
        [14, 91, 203, 0, 7, 255] 0 "t1").sent.map
          (fun r => r.data.map ErrorData.token) =
      (SecureTransport.handleMessage ErrorSanitizer.createProductionConfig
        (fun _ => Except.ok ⟨false, false, some "bad", some "HIGH",
          some "XSS_ATTEMPT"⟩)
        ⟨some "tools/call", some (RpcId.num 2), false, false⟩
        [14, 91, 203, 0, 7, 255] 2 "t2").sent.map
          (fun r => r.data.map ErrorData.token)) ∧
    RpcId.num 1 ≠ RpcId.num 2 := by decide

/-- C10: when the validator throws, the message is treated as blocked with
a CRITICAL `VALIDATION_ERROR` result: it is never forwarded, a request gets
the sanitized error response (code `-32602`), and a notification is
silently dropped. -/
theorem c10_validator_throw (cfg : SanitizerConfig)
    (validator : TMessage → Except Unit VResult) (m : TMessage)
    (randToken : List Nat) (msgByte : Nat) (ts : String)
    (hthrow : validator m = Except.error ()) :
    (SecureTransport.getMessageType m = MessageType.request →
      SecureTransport.handleMessage cfg validator m randToken msgByte ts =
        { sent := [ErrorSanitizer.createSanitizedErrorResponse cfg m.id
            "Validation error" "CRITICAL" "VALIDATION_ERROR" randToken msgByte ts],
          forwarded := [] }) ∧
    (SecureTransport.getMessageType m = MessageType.notification →
      SecureTransport.handleMessage cfg validator m randToken msgByte ts =
        { sent := [], forwarded := [] }) ∧
    (ErrorSanitizer.createSanitizedErrorResponse cfg m.id "Validation error"
        "CRITICAL" "VALIDATION_ERROR" randToken msgByte ts).code = -32602 := by
  refine ⟨?_, ?_, rfl⟩
  · intro hmt
    simp only [SecureTransport.handleMessage, hmt, SecureTransport.validateMessage,
      hthrow]
    simp [SecureTransport.sendBlockedResponse, strOrDefault]
  · intro hmt
    simp only [SecureTransport.handleMessage, hmt, SecureTransport.validateMessage,
      hthrow]
    simp

/-- C10 witness: a throwing validator on a concrete request with id 7. -/
theorem c10_witness :
    SecureTransport.handleMessage ErrorSanitizer.createProductionConfig
        (fun _ => Except.error ())
        ⟨some "tools/call", some (RpcId.num 7), false, false⟩
        [1, 2, 3, 4, 5, 6] 0 "2026-01-01T00:00:00.000Z" =
      { sent := [ErrorSanitizer.createSanitizedErrorResponse
          ErrorSanitizer.createProductionConfig (some (RpcId.num 7))
          "Validation error" "CRITICAL" "VALIDATION_ERROR" [1, 2, 3, 4, 5, 6] 0
          "2026-01-01T00:00:00.000Z"],
        forwarded := [] } := by
  have h := c10_validator_throw ErrorSanitizer.createProductionConfig
    (fun _ => Except.error ())
    ⟨some "tools/call", some (RpcId.num 7), false, false⟩
    [1, 2, 3, 4, 5, 6] 0 "2026-01-01T00:00:00.000Z" rfl
  exact h.1 (by decide)

/-! ## C3: `InMemoryQuotaProvider.incrementAndCheck` -/

/-- A call on a fresh key with a minute-only limit `L ≥ 1` creates the
minute bucket, increments it to 1 and passes. -/
theorem incrementAndCheck_fresh (skew : Int) (hskew : 0 ≤ skew) (key : String)
    (L : Nat) (hL : 1 ≤ L) (now : Int) :
    InMemoryQuotaProvider.incrementAndCheck ⟨skew, []⟩ key ⟨some L, none⟩ now =
      ({ passed := true, reason := none },
        ⟨skew, [(key, ⟨some ⟨1, now⟩, none⟩)]⟩) := by
  have hLne : (L != 0) = true := by
    simp only [bne_iff_ne, ne_eq]
    omega
  have hre : ¬(now - now > 60000 + skew) := by omega
  have hcnt : ¬(0 + 1 > L) := by omega
  simp [InMemoryQuotaProvider.incrementAndCheck, InMemoryQuotaProvider.checkWindow,
    limitTruthy, hLne, alistGet, alistSet, QuotaEntry.getBucket, QuotaEntry.setBucket,
    hre, hcnt]

/-- A call on a key whose minute bucket is still inside its window
increments the count and fails exactly when the new count exceeds the
limit, with the source's reason string. -/
theorem incrementAndCheck_step (skew : Int) (key : String) (L : Nat)
    (hL : 1 ≤ L) (now ws : Int) (c : Nat)
    (hre : ¬(now - ws > 60000 + skew)) :
    InMemoryQuotaProvider.incrementAndCheck ⟨skew, [(key, ⟨some ⟨c, ws⟩, none⟩)]⟩
        key ⟨some L, none⟩ now =
      (if c + 1 > L then
        { passed := false,
          reason := some ("Per-minute quota exceeded for " ++ key ++ ": " ++
            toString (c + 1) ++ "/" ++ toString L) }
       else { passed := true, reason := none },
        ⟨skew, [(key, ⟨some ⟨c + 1, ws⟩, none⟩)]⟩) := by
  have hLne : (L != 0) = true := by
    simp only [bne_iff_ne, ne_eq]
    omega
  by_cases hcnt : c + 1 > L
  · simp [InMemoryQuotaProvider.incrementAndCheck, InMemoryQuotaProvider.checkWindow,
      limitTruthy, hLne, alistGet, alistSet, QuotaEntry.getBucket, QuotaEntry.setBucket,
      hre, hcnt]
  · simp [InMemoryQuotaProvider.incrementAndCheck, InMemoryQuotaProvider.checkWindow,
      limitTruthy, hLne, alistGet, alistSet, QuotaEntry.getBucket, QuotaEntry.setBucket,
      hre, hcnt]

/-- A call after the window (plus clock skew) has elapsed resets the bucket
to `{count := 1, windowStart := now}` and passes. -/
theorem incrementAndCheck_reset (skew : Int) (key : String) (L : Nat)
    (hL : 1 ≤ L) (now ws : Int) (c : Nat)
    (hre : now - ws > 60000 + skew) :
    InMemoryQuotaProvider.incrementAndCheck ⟨skew, [(key, ⟨some ⟨c, ws⟩, none⟩)]⟩
        key ⟨some L, none⟩ now =
      ({ passed := true, reason := none },
        ⟨skew, [(key, ⟨some ⟨1, now⟩, none⟩)]⟩) := by
  have hLne : (L != 0) = true := by
    simp only [bne_iff_ne, ne_eq]
    omega
  have hcnt : ¬(0 + 1 > L) := by omega
  simp [InMemoryQuotaProvider.incrementAndCheck, InMemoryQuotaProvider.checkWindow,
    limitTruthy, hLne, alistGet, alistSet, QuotaEntry.getBucket, QuotaEntry.setBucket,
    hre, hcnt]

/-- After `n + 1` same-timestamp calls with a minute-only limit `L ≥ 1`,
the counters map holds exactly the minute bucket
`{count := n + 1, windowStart := now}`. -/
theorem quotaCallN_state (skew : Int) (hskew : 0 ≤ skew) (key : String)
    (L : Nat) (hL : 1 ≤ L) (now : Int) :
    ∀ n, quotaCallN ⟨skew, []⟩ key ⟨some L, none⟩ now (n + 1) =
      ⟨skew, [(key, ⟨some ⟨n + 1, now⟩, none⟩)]⟩ := by
  have hre : ¬(now - now > 60000 + skew) := by omega
  intro n
  induction n with
  | zero =>
    show (InMemoryQuotaProvider.incrementAndCheck
      (quotaCallN ⟨skew, []⟩ key ⟨some L, none⟩ now 0) key ⟨some L, none⟩ now).2 = _
    rw [show quotaCallN ⟨skew, []⟩ key ⟨some L, none⟩ now 0 = ⟨skew, []⟩ from rfl]
    rw [incrementAndCheck_fresh skew hskew key L hL now]
  | succ n ih =>
    show (InMemoryQuotaProvider.incrementAndCheck
      (quotaCallN ⟨skew, []⟩ key ⟨some L, none⟩ now (n + 1)) key ⟨some L, none⟩ now).2 = _
    rw [ih, incrementAndCheck_step skew key L hL now now (n + 1) hre]

/-- C3 (amended): with a minute limit `L ≥ 1` set and a nonnegative clock
skew, the bucket is lazily created at `{count := 0, windowStart := now}`
and incremented on each call; same-window calls pass while the incremented
count stays `≤ L`, the `(L+1)`-th call fails with exactly the reason
`"Per-minute quota exceeded for <key>: <L+1>/<L>"`, and once
`now' − now > windowMs + clockSkewMs` the bucket resets to
`{count := 1, windowStart := now'}` and the call passes.  (The claim's
"increments the count of each limited bucket" holds per processed bucket;
a failing minute check returns before the hour bucket is touched, see the
counterexample.) -/
theorem c3_quota_boundary (skew : Int) (hskew : 0 ≤ skew) (key : String)
    (L : Nat) (hL : 1 ≤ L) (now : Int) :
    (∀ n, n < L →
      (InMemoryQuotaProvider.incrementAndCheck
          (quotaCallN ⟨skew, []⟩ key ⟨some L, none⟩ now n) key ⟨some L, none⟩ now).1 =
        { passed := true, reason := none }) ∧
    (InMemoryQuotaProvider.incrementAndCheck
        (quotaCallN ⟨skew, []⟩ key ⟨some L, none⟩ now L) key ⟨some L, none⟩ now).1 =
      { passed := false,
        reason := some ("Per-minute quota exceeded for " ++ key ++ ": " ++
          toString (L + 1) ++ "/" ++ toString L) } ∧
    (∀ now', now' - now > 60000 + skew →
      (InMemoryQuotaProvider.incrementAndCheck
          (quotaCallN ⟨skew, []⟩ key ⟨some L, none⟩ now (L + 1)) key
          ⟨some L, none⟩ now').1 = { passed := true, reason := none } ∧
      (InMemoryQuotaProvider.incrementAndCheck
          (quotaCallN ⟨skew, []⟩ key ⟨some L, none⟩ now (L + 1)) key
          ⟨some L, none⟩ now').2.counters = [(key, ⟨some ⟨1, now'⟩, none⟩)]) := by
  have hre : ¬(now - now > 60000 + skew) := by omega
  refine ⟨?_, ?_, ?_⟩
  · intro n hn
    cases n with
    | zero =>
      rw [show quotaCallN ⟨skew, []⟩ key ⟨some L, none⟩ now 0 = ⟨skew, []⟩ from rfl]
      rw [incrementAndCheck_fresh skew hskew key L hL now]
    | succ m =>
      rw [quotaCallN_state skew hskew key L hL now m]
      rw [incrementAndCheck_step skew key L hL now now (m + 1) hre]
      have : ¬(m + 1 + 1 > L) := by omega
      simp [this]
  · obtain ⟨m, hm⟩ : ∃ m, L = m + 1 := ⟨L - 1, by omega⟩
    subst hm
    rw [quotaCallN_state skew hskew key (m + 1) hL now m]
    rw [incrementAndCheck_step skew key (m + 1) hL now now (m + 1) hre]
    have : m + 1 + 1 > m + 1 := by omega
    simp [this]
  · intro now' hnow'
    rw [quotaCallN_state skew hskew key L hL now L]
    rw [incrementAndCheck_reset skew key L hL now' now (L + 1) hnow']
    simp

/-- C3 witness: the boundary theorem at skew 1000, key `"tool:debug-echo"`,
minute limit 2, timestamp 0 (window boundary checked at `now' = 61001`). -/
theorem c3_witness :
    (0 : Int) ≤ 1000 ∧ (1 : Nat) ≤ 2 ∧
    (InMemoryQuotaProvider.incrementAndCheck
        (quotaCallN ⟨1000, []⟩ "tool:debug-echo" ⟨some 2, none⟩ 0 1)
        "tool:debug-echo" ⟨some 2, none⟩ 0).1 =
      { passed := true, reason := none } ∧
    (InMemoryQuotaProvider.incrementAndCheck
        (quotaCallN ⟨1000, []⟩ "tool:debug-echo" ⟨some 2, none⟩ 0 2)
        "tool:debug-echo" ⟨some 2, none⟩ 0).1 =
      { passed := false,
        reason := some ("Per-minute quota exceeded for " ++ "tool:debug-echo" ++
          ": " ++ toString (2 + 1) ++ "/" ++ toString 2) } ∧
    (InMemoryQuotaProvider.incrementAndCheck
        (quotaCallN ⟨1000, []⟩ "tool:debug-echo" ⟨some 2, none⟩ 0 (2 + 1))
        "tool:debug-echo" ⟨some 2, none⟩ 61001).1 =
      { passed := true, reason := none } := by
  have h := c3_quota_boundary 1000 (by decide) "tool:debug-echo" 2 (by decide) 0
  exact ⟨by decide, by decide, h.1 1 (by decide), h.2.1,
    (h.2.2 61001 (by decide)).1⟩

/-! ## C5: layer success results carry severity LOW, not NONE -/

/-- C5 counterexample: a layer's `createSuccessResult()` has
`passed = true` but `severity = 'LOW'` (the `ValidationResult` constructor
default), so `passed = true ⇒ severity = NONE` fails (the repository's own
unit test asserts the `'LOW'` value). -/
theorem c5_counterexample :
    (ValidationLayer.createSuccessResult "TestValidationLayer" 0).passed = true ∧
    (ValidationLayer.createSuccessResult "TestValidationLayer" 0).severity = "LOW" ∧
    "LOW" ≠ "NONE" := by decide

/-- C5 amended: every layer-produced success result has `passed = true`,
`allowed = true` and severity `'LOW'`; only the pipeline's composite
success result carries severity `'NONE'`. -/
theorem c5_success_severity (name : String) (now : Int) :
    (ValidationLayer.createSuccessResult name now).passed = true ∧
    (ValidationLayer.createSuccessResult name now).allowed = true ∧
    (ValidationLayer.createSuccessResult name now).severity = "LOW" ∧
    (pipelineSuccessResult now).passed = true ∧
    (pipelineSuccessResult now).severity = "NONE" :=
  ⟨rfl, rfl, rfl, rfl, rfl⟩

/-! ## C2: the pipeline short-circuits on the first blocking layer -/

/-- C2 counterexample: a layer result with `passed: false` but
`allowed: true` does **not** stop the pipeline (the early-return test is
`!passed && !allowed`): the next layer is still evaluated and the pipeline
returns the composite success result. -/
theorem c2_counterexample :
    (normalizeResult ⟨some false, some true, none, none, none, none, none⟩
        "L1" 0).passed = false ∧
    (ValidationPipeline.validate
        [⟨true, "L1", fun _ =>
            Except.ok ⟨some false, some true, none, none, none, none, none⟩⟩,
          ⟨true, "L2", fun _ =>
            Except.ok ⟨some true, some true, none, none, none, none, none⟩⟩]
        () false 0).evaluated = ["L1", "L2"] ∧
    (ValidationPipeline.validate
        [⟨true, "L1", fun _ =>
            Except.ok ⟨some false, some true, none, none, none, none, none⟩⟩,
          ⟨true, "L2", fun _ =>
            Except.ok ⟨some true, some true, none, none, none, none, none⟩⟩]
        () false 0).result = pipelineSuccessResult 0 := by decide

/-- C2 amended: whenever a layer's result normalizes to `passed = false`
**and** `allowed = false` (every layer that reports a failure without an
explicit contradictory `allowed: true` does), and every earlier enabled
layer returned a result normalizing to passed or allowed, the pipeline
returns that layer's normalized result, a decision record for it is handed
to the logger when one is present, and no later layer's `validate` runs:
the evaluated layers are exactly the enabled prefix plus the blocking
layer. -/
theorem c2_pipeline_first_block {M : Type} (pre post : List (PipelineLayer M))
    (l : PipelineLayer M) (message : M) (loggerPresent : Bool) (now : Int)
    (r : RawResult)
    (hpre : ∀ p ∈ pre, p.enabled = true → ∃ rp, p.validate message = Except.ok rp ∧
      ((normalizeResult rp p.name now).passed = true ∨
        (normalizeResult rp p.name now).allowed = true))
    (hl : l.enabled = true) (hr : l.validate message = Except.ok r)
    (hfailp : (normalizeResult r l.name now).passed = false)
    (hfaila : (normalizeResult r l.name now).allowed = false) :
    (ValidationPipeline.validate (pre ++ l :: post) message loggerPresent now).result =
      normalizeResult r l.name now ∧
    (ValidationPipeline.validate (pre ++ l :: post) message loggerPresent now).evaluated =
      (pre.filter (fun p => p.enabled)).map (fun p => p.name) ++ [l.name] ∧
    (loggerPresent = true →
      LogRecord.mk l.name (normalizeResult r l.name now) ∈
        (ValidationPipeline.validate (pre ++ l :: post) message loggerPresent now).log) := by
  induction pre with
  | nil =>
    simp only [List.nil_append, List.filter_nil, List.map_nil]
    rw [ValidationPipeline.validate]
    rw [if_pos hl, hr]
    have hcond : (!(normalizeResult r l.name now).passed &&
        !(normalizeResult r l.name now).allowed) = true := by
      simp [hfailp, hfaila]
    simp only [hcond, if_true]
    refine ⟨by trivial, by trivial, fun hlog => by simp [hlog]⟩
  | cons p pre ih =>
    have hpre' : ∀ q ∈ pre, q.enabled = true → ∃ rq, q.validate message = Except.ok rq ∧
        ((normalizeResult rq q.name now).passed = true ∨
          (normalizeResult rq q.name now).allowed = true) :=
      fun q hq => hpre q (List.mem_cons_of_mem _ hq)
    obtain ⟨hres, hev, hlog⟩ := ih hpre'
    simp only [List.cons_append]
    rw [ValidationPipeline.validate]
    by_cases hen : p.enabled = true
    · obtain ⟨rp, hrp, hpass⟩ := hpre p (List.mem_cons_self _ _) hen
      rw [if_pos hen, hrp]
      have hcond : (!(normalizeResult rp p.name now).passed &&
          !(normalizeResult rp p.name now).allowed) = false := by
        rcases hpass with h | h <;> simp [h]
      simp only [hcond, Bool.false_eq_true, if_false]
      refine ⟨hres, ?_, fun hlp => ?_⟩
      · simp only [List.filter_cons, hen, if_pos, List.map_cons, List.cons_append]
        rw [hev]
      · exact List.mem_append_right _ (hlog hlp)
    · rw [if_neg hen]
      refine ⟨hres, ?_, hlog⟩
      have hen' : p.enabled = false := by
        cases h : p.enabled
        · rfl
        · exact absurd h hen
      simp only [List.filter_cons, hen', Bool.false_eq_true, if_false]
      exact hev

/-- C2 witness: the short-circuit theorem at a concrete two-layer pipeline
(\"Blocker\" fails with passed/allowed false; \"After\" never runs). -/
theorem c2_witness :
    (ValidationPipeline.validate
        [(⟨true, "Blocker", fun _ => Except.ok
            ⟨some false, none, some "HIGH", some "nope", some "XSS_ATTEMPT",
              none, none⟩⟩ : PipelineLayer Unit),
          ⟨true, "After", fun _ =>
            Except.ok ⟨some true, some true, none, none, none, none, none⟩⟩]
        () true 0).result =
      normalizeResult
        ⟨some false, none, some "HIGH", some "nope", some "XSS_ATTEMPT", none, none⟩
        "Blocker" 0 ∧
    (ValidationPipeline.validate
        [(⟨true, "Blocker", fun _ => Except.ok
            ⟨some false, none, some "HIGH", some "nope", some "XSS_ATTEMPT",
              none, none⟩⟩ : PipelineLayer Unit),
          ⟨true, "After", fun _ =>
            Except.ok ⟨some true, some true, none, none, none, none, none⟩⟩]
        () true 0).evaluated = ["Blocker"] ∧
    LogRecord.mk "Blocker"
        (normalizeResult
          ⟨some false, none, some "HIGH", some "nope", some "XSS_ATTEMPT", none, none⟩
          "Blocker" 0) ∈
      (ValidationPipeline.validate
        [(⟨true, "Blocker", fun _ => Except.ok
            ⟨some false, none, some "HIGH", some "nope", some "XSS_ATTEMPT",
              none, none⟩⟩ : PipelineLayer Unit),
          ⟨true, "After", fun _ =>
            Except.ok ⟨some true, some true, none, none, none, none, none⟩⟩]
        () true 0).log := by
  have h := c2_pipeline_first_block []
    [(⟨true, "After", fun _ =>
        Except.ok ⟨some true, some true, none, none, none, none, none⟩⟩ :
      PipelineLayer Unit)]
    ⟨true, "Blocker", fun _ => Except.ok
      ⟨some false, none, some "HIGH", some "nope", some "XSS_ATTEMPT", none, none⟩⟩
    () true 0
    ⟨some false, none, some "HIGH", some "nope", some "XSS_ATTEMPT", none, none⟩
    (by intro p hp; cases hp) rfl rfl (by decide) (by decide)
  exact ⟨h.1, h.2.1, h.2.2 rfl⟩

/-! ## C7: `SessionMemory` -/

theorem alistGet_of_not_mem {α : Type} (m : List (String × α)) (k : String)
    (h : k ∉ m.map Prod.fst) : alistGet m k = none := by
  induction m with
  | nil => rfl
  | cons p rest ih =>
    simp only [List.map_cons, List.mem_cons] at h
    push_neg at h
    simp only [alistGet]
    rw [if_neg (fun he => h.1 he.symm)]
    exact ih h.2

theorem alistGet_none_not_mem {α : Type} (m : List (String × α)) (k : String)
    (h : alistGet m k = none) : k ∉ m.map Prod.fst := by
  induction m with
  | nil => simp
  | cons p rest ih =>
    simp only [alistGet] at h
    by_cases he : p.1 = k
    · rw [if_pos he] at h; cases h
    · rw [if_neg he] at h
      simp only [List.map_cons, List.mem_cons]
      push_neg
      exact ⟨fun hk => he hk.symm, ih h⟩

theorem alistSet_of_none {α : Type} (m : List (String × α)) (k : String) (v : α)
    (h : alistGet m k = none) : alistSet m k v = m ++ [(k, v)] := by
  induction m with
  | nil => rfl
  | cons p rest ih =>
    simp only [alistGet] at h
    by_cases he : p.1 = k
    · rw [if_pos he] at h; cases h
    · rw [if_neg he] at h
      simp only [alistSet, if_neg he, List.cons_append, List.cons.injEq, true_and]
      exact ih h

theorem alistDelete_sublist {α : Type} (m : List (String × α)) (k : String) :
    (alistDelete m k).Sublist m := by
  induction m with
  | nil => simp [alistDelete]
  | cons p rest ih =>
    simp only [alistDelete]
    by_cases he : p.1 = k
    · rw [if_pos he]
      exact List.sublist_cons_self p rest
    · rw [if_neg he]
      exact ih.cons₂ p

theorem alistDelete_length_of_some {α : Type} (m : List (String × α)) (k : String)
    (e : α) (h : alistGet m k = some e) :
    (alistDelete m k).length + 1 = m.length := by
  induction m with
  | nil => simp [alistGet] at h
  | cons p rest ih =>
    simp only [alistGet] at h
    simp only [alistDelete]
    by_cases he : p.1 = k
    · rw [if_pos he]; simp
    · rw [if_neg he] at h
      rw [if_neg he]
      simp only [List.length_cons]
      rw [← ih h]

theorem alistGet_delete_self {α : Type} (m : List (String × α)) (k : String)
    (hnd : (m.map Prod.fst).Nodup) : alistGet (alistDelete m k) k = none := by
  induction m with
  | nil => rfl
  | cons p rest ih =>
    simp only [List.map_cons, List.nodup_cons] at hnd
    simp only [alistDelete]
    by_cases he : p.1 = k
    · rw [if_pos he]
      exact alistGet_of_not_mem rest k (he ▸ hnd.1)
    · rw [if_neg he]
      simp only [alistGet, if_neg he]
      exact ih hnd.2

/-- The reachable-state invariant of a session memory. -/
def SessionInv (maxE : Nat) (ttl : Int) (st : SessionMemoryState) : Prop :=
  st.maxEntries = maxE ∧ st.ttlMs = ttl ∧ st.map.length ≤ maxE ∧
    (st.map.map Prod.fst).Nodup

theorem sessionInv_step (maxE : Nat) (hmax : 1 ≤ maxE) (ttl : Int)
    (st : SessionMemoryState) (hinv : SessionInv maxE ttl st) (op : SessionOp) :
    SessionInv maxE ttl (SessionMemory.step st op) := by
  obtain ⟨hme, htl, hlen, hnd⟩ := hinv
  cases op with
  | get k now =>
    show SessionInv maxE ttl (SessionMemory.get st k now).2
    unfold SessionMemory.get
    split
    · exact ⟨hme, htl, hlen, hnd⟩
    · rename_i entry hg
      split
      · refine ⟨hme, htl, le_trans ((alistDelete_sublist st.map k).length_le) hlen, ?_⟩
        exact hnd.sublist ((alistDelete_sublist st.map k).map Prod.fst)
      · have hdel : alistGet (alistDelete st.map k) k = none :=
          alistGet_delete_self st.map k hnd
        refine ⟨hme, htl, ?_, ?_⟩
        · show (alistSet (alistDelete st.map k) k entry).length ≤ maxE
          rw [alistSet_of_none _ _ _ hdel]
          simp only [List.length_append, List.length_cons, List.length_nil]
          have := alistDelete_length_of_some st.map k entry hg
          omega
        · show ((alistSet (alistDelete st.map k) k entry).map Prod.fst).Nodup
          rw [alistSet_of_none _ _ _ hdel]
          have hnd' : ((alistDelete st.map k).map Prod.fst).Nodup :=
            hnd.sublist ((alistDelete_sublist st.map k).map Prod.fst)
          have hnm : k ∉ (alistDelete st.map k).map Prod.fst :=
            alistGet_none_not_mem _ _ hdel
          simp [List.nodup_append, hnd', hnm]
  | set k mth now =>
    show SessionInv maxE ttl (SessionMemory.set st k mth now)
    unfold SessionMemory.set
    by_cases hhas : alistHas st.map k = true
    · obtain ⟨e, he⟩ : ∃ e, alistGet st.map k = some e := by
        unfold alistHas at hhas
        cases hg : alistGet st.map k with
        | none => rw [hg] at hhas; simp at hhas
        | some e => exact ⟨e, rfl⟩
      have hdel : alistGet (alistDelete st.map k) k = none :=
        alistGet_delete_self st.map k hnd
      simp only [hhas, if_true]
      refine ⟨hme, htl, ?_, ?_⟩
      · show (alistSet (alistDelete st.map k) k ⟨mth, now⟩).length ≤ maxE
        rw [alistSet_of_none _ _ _ hdel]
        simp only [List.length_append, List.length_cons, List.length_nil]
        have := alistDelete_length_of_some st.map k e he
        omega
      · show ((alistSet (alistDelete st.map k) k ⟨mth, now⟩).map Prod.fst).Nodup
        rw [alistSet_of_none _ _ _ hdel]
        have hnd' : ((alistDelete st.map k).map Prod.fst).Nodup :=
          hnd.sublist ((alistDelete_sublist st.map k).map Prod.fst)
        have hnm : k ∉ (alistDelete st.map k).map Prod.fst :=
          alistGet_none_not_mem _ _ hdel
        simp [List.nodup_append, hnd', hnm]
    · have hknm : k ∉ st.map.map Prod.fst := by
        apply alistGet_none_not_mem
        unfold alistHas at hhas
        cases hg : alistGet st.map k with
        | none => rfl
        | some e => rw [hg] at hhas; simp at hhas
      simp only [Bool.not_eq_true] at hhas
      simp only [hhas, Bool.false_eq_true, if_false]
      by_cases hcap : st.map.length ≥ st.maxEntries
      · rw [if_pos hcap]
        cases hm : st.map with
        | nil =>
          rw [hm] at hcap
          simp only [List.length_nil] at hcap
          rw [hme] at hcap
          omega
        | cons p tl =>
          obtain ⟨pk, pv⟩ := p
          simp only [List.head?_cons]
          have hdeltl : alistDelete ((pk, pv) :: tl) pk = tl := by
            simp [alistDelete]
          rw [hdeltl]
          have hktl : k ∉ tl.map Prod.fst := by
            rw [hm] at hknm
            simp only [List.map_cons, List.mem_cons] at hknm
            push_neg at hknm
            exact hknm.2
          have hgtl : alistGet tl k = none := alistGet_of_not_mem tl k hktl
          refine ⟨hme, htl, ?_, ?_⟩
          · show (alistSet tl k ⟨mth, now⟩).length ≤ maxE
            rw [alistSet_of_none _ _ _ hgtl]
            rw [hm] at hlen
            simp only [List.length_append, List.length_cons, List.length_nil]
            simp only [List.length_cons] at hlen
            omega
          · show ((alistSet tl k ⟨mth, now⟩).map Prod.fst).Nodup
            rw [alistSet_of_none _ _ _ hgtl]
            have hndtl : (tl.map Prod.fst).Nodup := by
              rw [hm] at hnd
              simp only [List.map_cons, List.nodup_cons] at hnd
              exact hnd.2
            simp [List.nodup_append, hndtl, hktl]
      · rw [if_neg hcap]
        have hg : alistGet st.map k = none := alistGet_of_not_mem _ _ hknm
        refine ⟨hme, htl, ?_, ?_⟩
        · show (alistSet st.map k ⟨mth, now⟩).length ≤ maxE
          rw [alistSet_of_none _ _ _ hg]
          simp only [List.length_append, List.length_cons, List.length_nil]
          rw [hme] at hcap
          omega
        · show ((alistSet st.map k ⟨mth, now⟩).map Prod.fst).Nodup
          rw [alistSet_of_none _ _ _ hg]
          simp [List.nodup_append, hnd, hknm]

theorem sessionInv_run (maxE : Nat) (hmax : 1 ≤ maxE) (ttl : Int)
    (ops : List SessionOp) :
    SessionInv maxE ttl (SessionMemory.run (SessionMemory.empty maxE ttl) ops) := by
  have hstart : SessionInv maxE ttl (SessionMemory.empty maxE ttl) := by
    refine ⟨rfl, rfl, ?_, ?_⟩ <;> simp [SessionMemory.empty]
  revert hstart
  generalize SessionMemory.empty maxE ttl = st
  induction ops generalizing st with
  | nil => intro h; exact h
  | cons op ops ih =>
    intro h
    exact ih _ (sessionInv_step maxE hmax ttl st h op)

/-- C7 (amended): for `maxEntries ≥ 1`, every state reachable from a fresh
session memory by `get`/`set` calls holds at most `maxEntries` entries;
`get(k, now)` returns a method only for a stored entry whose age
`now − timestamp` is at most `ttlMs`, and the hit moves the entry to the
most-recently-used end of the map; an entry older than `ttlMs` is deleted
(and then absent) and reported missing.  (For `maxEntries = 0` the bound
fails: `set` on the empty memory evicts nothing — `Map.delete(undefined)`
is a no-op — and still inserts, see the counterexample.) -/
theorem c7_session_memory (maxE : Nat) (hmax : 1 ≤ maxE) (ttl : Int)
    (ops : List SessionOp) :
    (SessionMemory.run (SessionMemory.empty maxE ttl) ops).map.length ≤ maxE ∧
    (∀ k now mth st',
      SessionMemory.get (SessionMemory.run (SessionMemory.empty maxE ttl) ops) k now =
        (some mth, st') →
      ∃ e, alistGet (SessionMemory.run (SessionMemory.empty maxE ttl) ops).map k =
            some e ∧
        e.method = mth ∧ now - e.timestamp ≤ ttl ∧
        st'.map =
          alistDelete (SessionMemory.run (SessionMemory.empty maxE ttl) ops).map k ++
            [(k, e)]) ∧
    (∀ k now e,
      alistGet (SessionMemory.run (SessionMemory.empty maxE ttl) ops).map k = some e →
      now - e.timestamp > ttl →
      (SessionMemory.get (SessionMemory.run (SessionMemory.empty maxE ttl) ops) k
          now).1 = none ∧
      alistGet
        (SessionMemory.get (SessionMemory.run (SessionMemory.empty maxE ttl) ops) k
          now).2.map k = none) := by
  obtain ⟨hme, htl, hlen, hnd⟩ := sessionInv_run maxE hmax ttl ops
  refine ⟨hlen, ?_, ?_⟩
  · intro k now mth st' hget
    unfold SessionMemory.get at hget
    split at hget
    · simp at hget
    · rename_i entry hg
      split at hget
      · simp at hget
      · rename_i hexp
        injection hget with h1 h2
        injection h1 with h1
        refine ⟨entry, hg, h1, ?_, ?_⟩
        · rw [htl] at hexp; omega
        · rw [← h2]
          show (alistSet (alistDelete _ k) k entry) = _
          rw [alistSet_of_none _ _ _ (alistGet_delete_self _ k hnd)]
  · intro k now e hg hexp
    have hexp' : now - e.timestamp >
        (SessionMemory.run (SessionMemory.empty maxE ttl) ops).ttlMs := by
      rw [htl]; exact hexp
    simp only [SessionMemory.get, hg, if_pos hexp']
    exact ⟨trivial, alistGet_delete_self _ k hnd⟩

/-- C7 witness: the invariant theorem at `maxEntries = 2`, `ttlMs = 1000`
and a concrete operation sequence that forces an LRU eviction; the final
map is checked concretely. -/
theorem c7_witness :
    (1 : Nat) ≤ 2 ∧
    (SessionMemory.run (SessionMemory.empty 2 1000)
        [SessionOp.set "s1" "initialize" 0, SessionOp.set "s2" "ping" 5,
          SessionOp.set "s3" "tools/list" 9]).map.length ≤ 2 ∧
    (SessionMemory.run (SessionMemory.empty 2 1000)
        [SessionOp.set "s1" "initialize" 0, SessionOp.set "s2" "ping" 5,
          SessionOp.set "s3" "tools/list" 9]).map.map Prod.fst = ["s2", "s3"] :=
  ⟨by decide,
    (c7_session_memory 2 (by decide) 1000
      [SessionOp.set "s1" "initialize" 0, SessionOp.set "s2" "ping" 5,
        SessionOp.set "s3" "tools/list" 9]).1,
    by decide⟩

/-- C7 counterexample: with `maxEntries = 0` a single `set` leaves one entry
in the map — more than `maxEntries` — because the eviction branch deletes
nothing on an empty map (`Map.delete(undefined)` is a no-op) and then
inserts. -/
theorem c7_counterexample :
    ¬((SessionMemory.run (SessionMemory.empty 0 1000)
        [SessionOp.set "a" "initialize" 0]).map.length ≤
      (SessionMemory.empty 0 1000).maxEntries) := by decide

/-- C3 counterexample: with limits `{minute: 1, hour: 100}` and two calls at
time 0, the second call's minute check fails and `incrementAndCheck`
returns without touching the hour bucket: the hour count stays `1`, not the
`2` that "increments the count of each limited bucket" requires. -/
theorem c3_counterexample :
    (InMemoryQuotaProvider.incrementAndCheck
        (quotaCallN ⟨1000, []⟩ "k" ⟨some 1, some 100⟩ 0 1) "k"
        ⟨some 1, some 100⟩ 0).1.passed = false ∧
    ((alistGet (quotaCallN ⟨1000, []⟩ "k" ⟨some 1, some 100⟩ 0 2).counters "k").map
        QuotaEntry.hour = some (some ⟨1, 0⟩)) ∧
    ¬((alistGet (quotaCallN ⟨1000, []⟩ "k" ⟨some 1, some 100⟩ 0 2).counters "k").map
        QuotaEntry.hour = some (some ⟨2, 0⟩)) := by
  refine ⟨by decide, by decide, by decide⟩

/-! ## C1: canonicalizer idempotence -/

theorem decodeUnicodeEscapesAux_id (fuel : Nat) :
    ∀ l : List Char, '\\' ∉ l → decodeUnicodeEscapesAux fuel l = l := by
  induction fuel with
  | zero => intro l _; rfl
  | succ fuel ih =>
    intro l h
    cases l with
    | nil => rfl
    | cons c rest =>
      have hc : ¬ c = '\\' := fun he => h (he ▸ List.mem_cons_self c rest)
      have hrest : '\\' ∉ rest := fun hm => h (List.mem_cons_of_mem c hm)
      simp only [decodeUnicodeEscapesAux, if_neg hc, ih rest hrest]

theorem decodeUnicodeEscapes_id (l : List Char) (h : '\\' ∉ l) :
    decodeUnicodeEscapes l = l :=
  decodeUnicodeEscapesAux_id _ l h

theorem normalizeUnicode_id (l : List Char) (h : ∀ c ∈ l, c.toNat < 128) :
    normalizeUnicode l = l := by
  unfold normalizeUnicode
  have hmap : (l.map fun c =>
      if isFullwidthChar c then Char.ofNat (c.toNat - 0xFEE0) else c) = l := by
    rw [show (l.map fun c =>
        if isFullwidthChar c then Char.ofNat (c.toNat - 0xFEE0) else c) =
        l.map id from List.map_congr_left fun c hc => by
      have hcc := h c hc
      have hf : isFullwidthChar c = false := by
        simp only [isFullwidthChar, decide_eq_false_iff_not]
        omega
      simp [hf]]
    exact List.map_id l
  rw [hmap]
  refine List.filter_eq_self.mpr fun c hc => ?_
  have hcc := h c hc
  have hz : isCanonZeroWidth c = false := by
    simp only [isCanonZeroWidth, decide_eq_false_iff_not]
    omega
  simp [hz]

theorem decodeEntitiesAux_id (fuel : Nat) :
    ∀ l : List Char, '&' ∉ l → decodeEntitiesAux fuel l = l := by
  induction fuel with
  | zero => intro l _; rfl
  | succ fuel ih =>
    intro l h
    cases l with
    | nil => rfl
    | cons c rest =>
      have hc : ¬ c = '&' := fun he => h (he ▸ List.mem_cons_self c rest)
      have hrest : '&' ∉ rest := fun hm => h (List.mem_cons_of_mem c hm)
      simp only [decodeEntitiesAux, if_neg hc, ih rest hrest]

theorem decodeEntities_id (l : List Char) (h : '&' ∉ l) :
    decodeEntities l = l :=
  decodeEntitiesAux_id _ l h

theorem normalizeWhitespace_id (l : List Char) (h : ∀ c ∈ l, c.toNat < 128) :
    normalizeWhitespace l = l := by
  unfold normalizeWhitespace
  rw [show (l.map fun c =>
      if isCanonUnicodeSpace c then ' '
      else if c.toNat = 0x2028 ∨ c.toNat = 0x2029 then '\n'
      else c) = l.map id from List.map_congr_left fun c hc => by
    have hcc := h c hc
    have hs : isCanonUnicodeSpace c = false := by
      simp only [isCanonUnicodeSpace, decide_eq_false_iff_not]
      omega
    have hl : ¬ (c.toNat = 0x2028 ∨ c.toNat = 0x2029) := by omega
    simp [hs, hl]]
  exact List.map_id l

theorem removePostDecodingZeroWidth_id (l : List Char)
    (h : ∀ c ∈ l, c.toNat < 128) : removePostDecodingZeroWidth l = l := by
  refine List.filter_eq_self.mpr fun c hc => ?_
  have hcc := h c hc
  have hz : isCanonZeroWidth c = false := by
    simp only [isCanonZeroWidth, decide_eq_false_iff_not]
    omega
  simp [hz]

theorem collapse25_id (l : List Char) (h : '%' ∉ l) : collapse25 l = l := by
  induction l with
  | nil => rfl
  | cons c rest ih =>
    have hc : ¬ c = '%' := fun he => h (he ▸ List.mem_cons_self c rest)
    have hrest : '%' ∉ rest := fun hm => h (List.mem_cons_of_mem c hm)
    conv_lhs => unfold collapse25
    split
    · rename_i h1 h2 rest2 heq
      have hpair : c = '%' ∧ rest = '2' :: '5' :: h1 :: h2 :: rest2 := by
        simpa using heq
      exact absurd hpair.1 hc
    · rename_i l0 c2 rest2 hnc heq
      have hpair : c = c2 ∧ rest = rest2 := by
        simpa using heq
      rw [← hpair.1, ← hpair.2, ih hrest]
    · rename_i l0 heq
      exact absurd heq (by simp)

theorem collapse252_id (l : List Char) (h : '%' ∉ l) : collapse252 l = l := by
  induction l with
  | nil => rfl
  | cons c rest ih =>
    have hc : ¬ c = '%' := fun he => h (he ▸ List.mem_cons_self c rest)
    have hrest : '%' ∉ rest := fun hm => h (List.mem_cons_of_mem c hm)
    conv_lhs => unfold collapse252
    split
    · rename_i h1 rest2 heq
      have hpair : c = '%' ∧ rest = '2' :: '5' :: '2' :: h1 :: rest2 := by
        simpa using heq
      exact absurd hpair.1 hc
    · rename_i l0 c2 rest2 hnc heq
      have hpair : c = c2 ∧ rest = rest2 := by
        simpa using heq
      rw [← hpair.1, ← hpair.2, ih hrest]
    · rename_i l0 heq
      exact absurd heq (by simp)

theorem collapse2525_id (l : List Char) (h : '%' ∉ l) : collapse2525 l = l := by
  induction l with
  | nil => rfl
  | cons c rest ih =>
    have hc : ¬ c = '%' := fun he => h (he ▸ List.mem_cons_self c rest)
    have hrest : '%' ∉ rest := fun hm => h (List.mem_cons_of_mem c hm)
    conv_lhs => unfold collapse2525
    split
    · rename_i h1 rest2 heq
      have hpair : c = '%' ∧ rest = '2' :: '5' :: '2' :: '5' :: h1 :: rest2 := by
        simpa using heq
      exact absurd hpair.1 hc
    · rename_i l0 c2 rest2 hnc heq
      have hpair : c = c2 ∧ rest = rest2 := by
        simpa using heq
      rw [← hpair.1, ← hpair.2, ih hrest]
    · rename_i l0 heq
      exact absurd heq (by simp)

theorem replTok_id (a b out : Char) (l : List Char) (h : '%' ∉ l) :
    replTok a b out l = l := by
  induction l with
  | nil => rfl
  | cons c rest ih =>
    have hc : ¬ c = '%' := fun he => h (he ▸ List.mem_cons_self c rest)
    have hrest : '%' ∉ rest := fun hm => h (List.mem_cons_of_mem c hm)
    conv_lhs => unfold replTok
    split
    · rename_i x y rest2 heq
      have hpair : c = '%' ∧ rest = x :: y :: rest2 := by
        simpa using heq
      exact absurd hpair.1 hc
    · rename_i l0 c2 rest2 hnc heq
      have hpair : c = c2 ∧ rest = rest2 := by
        simpa using heq
      rw [← hpair.1, ← hpair.2, ih hrest]
    · rename_i l0 heq
      exact absurd heq (by simp)

theorem decodeSingleUrlEncoding_id (l : List Char) (h : '%' ∉ l) :
    decodeSingleUrlEncoding l = l := by
  unfold decodeSingleUrlEncoding
  simp only [replTok_id _ _ _ l h]

theorem pctDecodeAux_some (l : List Char) (h : '%' ∉ l) :
    pctDecodeAux l = some l := by
  induction l with
  | nil => rfl
  | cons c rest ih =>
    have hc : ¬ c = '%' := fun he => h (he ▸ List.mem_cons_self c rest)
    have hrest : '%' ∉ rest := fun hm => h (List.mem_cons_of_mem c hm)
    conv_lhs => unfold pctDecodeAux
    split
    · rename_i l0 heq
      exact absurd heq (by simp)
    · rename_i l0 x y rest2 heq
      have hpair : c = '%' ∧ rest = x :: y :: rest2 := by
        simpa using heq
      exact absurd hpair.1 hc
    · rename_i l0 rest2 hnc heq
      have hpair : c = '%' ∧ rest = rest2 := by
        simpa using heq
      exact absurd hpair.1 hc
    · rename_i l0 c2 rest2 hnc1 hnc2 heq
      have hpair : c = c2 ∧ rest = rest2 := by
        simpa using heq
      rw [← hpair.1, ← hpair.2, ih hrest]
      rfl

theorem decodeURIComponentSafe_id (l : List Char) (h : '%' ∉ l) :
    decodeURIComponentSafe l = l := by
  unfold decodeURIComponentSafe
  rw [pctDecodeAux_some l h]

theorem decodeUrlsCanonical_id (l : List Char) (h : '%' ∉ l) :
    decodeUrlsCanonical l = l := by
  unfold decodeUrlsCanonical
  rw [decodeUrlsLoop]
  simp only [collapse25_id l h, collapse252_id l h, collapse2525_id l h,
    ite_self, decodeSingleUrlEncoding_id l h, decodeURIComponentSafe_id l h]
  rw [if_neg (show ¬ (some l = none) by simp)]
  simp

theorem canonicalizeString_id_of_safe (s : String)
    (h : ∀ c ∈ s.data, CanonSafeChar c) : canonicalizeString s = s := by
  have hbs : '\\' ∉ s.data := fun hm => ((h _ hm).2.1) rfl
  have hascii : ∀ c ∈ s.data, c.toNat < 128 := fun c hc => (h c hc).1
  have hpct : '%' ∉ s.data := fun hm => ((h _ hm).2.2.1) rfl
  have hamp : '&' ∉ s.data := fun hm => ((h _ hm).2.2.2) rfl
  unfold canonicalizeString
  simp only [decodeUnicodeEscapes_id s.data hbs,
    normalizeUnicode_id s.data hascii, decodeEntities_id s.data hamp,
    decodeUrlsCanonical_id s.data hpct, normalizeWhitespace_id s.data hascii,
    removePostDecodingZeroWidth_id s.data hascii]

/-- **C1** (amended): `canonicalizeString` is idempotent on every input
whose canonical form is ASCII and free of `\`, `%` and `&` — the canonical
form of benign inputs.  Unrestricted idempotence is false: a deep enough
percent-encoding chain exhausts `decodeUrlsCanonical`'s 8-iteration budget,
so a second application keeps decoding (see the counterexample), and
re-decodable entity/escape text such as `&#38;lt;` behaves likewise. -/
theorem c1_canonicalize_idempotent (s : String)
    (h : ∀ c ∈ (canonicalizeString s).data, CanonSafeChar c) :
    canonicalizeString (canonicalizeString s) = canonicalizeString s :=
  canonicalizeString_id_of_safe (canonicalizeString s) h

/-- Witness for C1 at a concrete benign string. -/
theorem c1_witness :
    (∀ c ∈ (canonicalizeString "hello tool-call 42").data, CanonSafeChar c) ∧
    canonicalizeString (canonicalizeString "hello tool-call 42") =
      canonicalizeString "hello tool-call 42" :=
  ⟨by decide, c1_canonicalize_idempotent "hello tool-call 42" (by decide)⟩

/-- **C1** counterexample: a 30-fold percent-encoding of `<` exhausts the
8-iteration budget of `decodeUrlsCanonical`; one canonicalization pass
stops at `"%3C"`, and a second pass decodes it further to `"<"`, so
`canonicalize(canonicalize(s)) ≠ canonicalize(s)`. -/
theorem c1_counterexample :
    canonicalizeString (String.mk ('%' :: (List.replicate 30 ['2', '5']).flatten
      ++ ['3', 'C'])) = "%3C" ∧
    canonicalizeString (canonicalizeString (String.mk ('%' ::
      (List.replicate 30 ['2', '5']).flatten ++ ['3', 'C']))) = "<" ∧
    canonicalizeString (canonicalizeString (String.mk ('%' ::
      (List.replicate 30 ['2', '5']).flatten ++ ['3', 'C']))) ≠
      canonicalizeString (String.mk ('%' ::
      (List.replicate 30 ['2', '5']).flatten ++ ['3', 'C'])) := by
  refine ⟨by decide, by decide, by decide⟩

end McpSec
